import Mathlib

/-!
Verification of the NBT (Named Binary Tag) read-only decoder of this repository
(`src/read.ts`, `src/tag.ts`) against its natural-language specification.

The decoder is shallowly embedded: the mutable `NBTReader` class becomes explicit
state passing over a state `S`; JavaScript 32-bit integer operations are modelled
on `Int` via bit patterns (`Nat` values below `2^32`); JavaScript `BigInt`
operations are modelled on `Int` (two's complement bitwise operations); fallible
code returns `Except Err`.  Strings are represented by their raw MUTF-8 code
units (the Modified UTF-8 decoder is an external black box per the spec, §1/§6);
FLOAT and DOUBLE payloads carry their raw IEEE bit patterns (no claim below
depends on floating-point arithmetic).  The unbounded recursions of the source
(`#readTag` and the driver `read`) take an explicit fuel argument; running out of
fuel yields the artificial error `Err.outOfFuel`, distinct from every real error.
-/

namespace NBTify

/-- Error kinds of the decoder.  The first six mirror the error classes of
`errors.ts`; `rangeError` models the host `RangeError` thrown by `DataView`
accesses out of bounds and by typed-array construction with a negative length;
`decompressError` models a generic failure of the external decompression
collaborator; `outOfFuel` is the artificial fuel-exhaustion marker of this
embedding. -/
inductive Err where
  | unexpectedBufferEnd
  | invalidTag
  | unexpectedEndTag
  | varNumTooLarge
  | invalidOpeningTag
  | unexpectedRootName
  | rangeError
  | decompressError
  | outOfFuel
  deriving DecidableEq, Repr

/-! ### JavaScript numeric semantics -/

/-- ToUint32: the 32-bit pattern of a JavaScript number holding an integer. -/
def pat32 (i : ℤ) : ℕ := (i % (4294967296 : ℤ)).toNat

/-- Interpretation of an 8-bit pattern as a signed value (`DataView.getInt8`). -/
def toSigned8 (n : ℕ) : ℤ :=
  if n % 256 < 128 then ((n % 256 : ℕ) : ℤ) else ((n % 256 : ℕ) : ℤ) - 256

/-- Interpretation of a 16-bit pattern as a signed value (`DataView.getInt16`). -/
def toSigned16 (n : ℕ) : ℤ :=
  if n % 65536 < 32768 then ((n % 65536 : ℕ) : ℤ) else ((n % 65536 : ℕ) : ℤ) - 65536

/-- Interpretation of a 32-bit pattern as a signed value (ToInt32 /
`DataView.getInt32`). -/
def toSigned32 (n : ℕ) : ℤ :=
  if n % 4294967296 < 2147483648 then ((n % 4294967296 : ℕ) : ℤ)
  else ((n % 4294967296 : ℕ) : ℤ) - 4294967296

/-- Interpretation of a 64-bit pattern as a signed value (`getBigInt64`). -/
def toSigned64 (n : ℕ) : ℤ :=
  if n % 18446744073709551616 < 9223372036854775808 then ((n % 18446744073709551616 : ℕ) : ℤ)
  else ((n % 18446744073709551616 : ℕ) : ℤ) - 18446744073709551616

/-- JavaScript `&` on numbers (both operands converted with ToInt32). -/
def jsAnd (a b : ℤ) : ℤ := toSigned32 (pat32 a &&& pat32 b)

/-- JavaScript `|` on numbers. -/
def jsOr (a b : ℤ) : ℤ := toSigned32 (pat32 a ||| pat32 b)

/-- JavaScript `^` on numbers. -/
def jsXor (a b : ℤ) : ℤ := toSigned32 (pat32 a ^^^ pat32 b)

/-- JavaScript `<<` on numbers: the shift count is taken mod 32. -/
def jsShl (a k : ℤ) : ℤ := toSigned32 (pat32 a <<< (pat32 k % 32))

/-- JavaScript `>>` on numbers: sign-propagating shift, i.e. floor division of
the ToInt32 value by a power of two; the shift count is taken mod 32. -/
def jsShr (a k : ℤ) : ℤ := toSigned32 (pat32 a) >>> (pat32 k % 32)

/-- JavaScript `BigInt` `&` (two's complement on arbitrary-precision integers);
`Int.negSucc m` is the bitwise complement of `m`. -/
def bigAnd : ℤ → ℤ → ℤ
  | .ofNat m, .ofNat n => .ofNat (m &&& n)
  | .ofNat m, .negSucc n => .ofNat (m ^^^ (m &&& n))
  | .negSucc m, .ofNat n => .ofNat (n ^^^ (n &&& m))
  | .negSucc m, .negSucc n => .negSucc (m ||| n)

/-- JavaScript `BigInt` `|`. -/
def bigOr : ℤ → ℤ → ℤ
  | .ofNat m, .ofNat n => .ofNat (m ||| n)
  | .ofNat m, .negSucc n => .negSucc (n ^^^ (n &&& m))
  | .negSucc m, .ofNat n => .negSucc (m ^^^ (m &&& n))
  | .negSucc m, .negSucc n => .negSucc (m &&& n)

/-- JavaScript `BigInt` `^`. -/
def bigXor : ℤ → ℤ → ℤ
  | .ofNat m, .ofNat n => .ofNat (m ^^^ n)
  | .ofNat m, .negSucc n => .negSucc (m ^^^ n)
  | .negSucc m, .ofNat n => .negSucc (m ^^^ n)
  | .negSucc m, .negSucc n => .ofNat (m ^^^ n)

/-- JavaScript `BigInt` `<<` (every use in the source has a nonnegative count). -/
def bigShl (a k : ℤ) : ℤ := a * 2 ^ k.toNat

/-- JavaScript `BigInt` `>>`: arithmetic shift, i.e. floor division by `2 ^ k`. -/
def bigShr (a k : ℤ) : ℤ := a >>> k.toNat

/-! ### The byte cursor -/

/-- State of an `NBTReader`: the underlying bytes (`#data`, equally the backing
`DataView`), the cursor (`#byteOffset`, an integer: negative length prefixes can
move it backwards or below zero), and the two immutable dialect flags. -/
structure S where
  data : List ℕ
  off : ℤ
  littleEndian : Bool
  varint : Bool
  deriving DecidableEq, Repr

/-- Byte of the buffer at an index (callers establish the bounds); values are
reduced mod 256 to reflect the `Uint8Array` element invariant. -/
def byteAt (d : List ℕ) (i : ℤ) : ℕ := d.getD i.toNat 0 % 256

/-- Big-endian unsigned value of `w` bytes starting at offset `o`. -/
def bytesBE (d : List ℕ) (o : ℤ) : ℕ → ℕ
  | 0 => 0
  | w + 1 => bytesBE d o w * 256 + byteAt d (o + w)

/-- Little-endian unsigned value of `w` bytes starting at offset `o`. -/
def bytesLE (d : List ℕ) (o : ℤ) : ℕ → ℕ
  | 0 => 0
  | w + 1 => byteAt d o + 256 * bytesLE d (o + 1) w

/-- Unsigned value of `w` bytes at `o` in the given byte order (`DataView`
`getUint8/16/32`, `getBigUint64`, and the payload bits of the float reads). -/
def viewGetUint (d : List ℕ) (o : ℤ) (w : ℕ) (little : Bool) : ℕ :=
  if little then bytesLE d o w else bytesBE d o w

/-- The `#allocate` guard: fails when the read would pass the end of the buffer. -/
def allocate (s : S) (byteLength : ℤ) : Except Err Unit :=
  if s.off + byteLength > (s.data.length : ℤ) then .error .unexpectedBufferEnd else .ok ()

/-- The bounds check `DataView` itself performs on every access (`#allocate`
only guards the upper end, so a negative cursor surfaces as a host
`RangeError`). -/
def viewCheck (s : S) (w : ℕ) : Except Err Unit :=
  if 0 ≤ s.off ∧ s.off + w ≤ (s.data.length : ℤ) then .ok () else .error .rangeError

/-- Primitive fixed-width read: `#allocate`, then the `DataView` access at the
cursor in the reader's byte order, then advance the cursor by the width. -/
def readFixed (s : S) (w : ℕ) : Except Err (ℕ × S) := do
  let _ ← allocate s w
  let _ ← viewCheck s w
  .ok (viewGetUint s.data s.off w s.littleEndian, { s with off := s.off + w })

/-- The `#readUnsignedByte` primitive. -/
def readUnsignedByte (s : S) : Except Err (ℤ × S) := do
  let (v, s) ← readFixed s 1
  .ok ((v : ℤ), s)

/-- The `#readByte` primitive (`getInt8`). -/
def readByte (s : S) : Except Err (ℤ × S) := do
  let (v, s) ← readFixed s 1
  .ok (toSigned8 v, s)

/-- The `#readUnsignedShort` primitive. -/
def readUnsignedShort (s : S) : Except Err (ℤ × S) := do
  let (v, s) ← readFixed s 2
  .ok ((v : ℤ), s)

/-- The `#readShort` primitive. -/
def readShort (s : S) : Except Err (ℤ × S) := do
  let (v, s) ← readFixed s 2
  .ok (toSigned16 v, s)

/-- The `#readUnsignedInt` primitive. -/
def readUnsignedInt (s : S) : Except Err (ℤ × S) := do
  let (v, s) ← readFixed s 4
  .ok ((v : ℤ), s)

/-- The `#readInt` primitive. -/
def readInt (s : S) : Except Err (ℤ × S) := do
  let (v, s) ← readFixed s 4
  .ok (toSigned32 v, s)

/-- The `#readLong` primitive (`getBigInt64`). -/
def readLong (s : S) : Except Err (ℤ × S) := do
  let (v, s) ← readFixed s 8
  .ok (toSigned64 v, s)

/-- The `#readFloat` primitive; the value is the raw 32-bit pattern (IEEE
interpretation is not modelled, no claim depends on it). -/
def readFloat (s : S) : Except Err (ℤ × S) := do
  let (v, s) ← readFixed s 4
  .ok ((v : ℤ), s)

/-- The `#readDouble` primitive; the value is the raw 64-bit pattern. -/
def readDouble (s : S) : Except Err (ℤ × S) := do
  let (v, s) ← readFixed s 8
  .ok ((v : ℤ), s)

/-! ### Variable-width integer reads -/

/-- Loop of `#readVarInt`: accumulate 7 bits per byte with 32-bit operations;
NOTE the source has no size check here, the loop only stops at a byte with the
continuation bit clear (or when `#readByte` itself fails). -/
def readVarIntLoop : ℕ → ℤ → ℤ → S → Except Err (ℤ × S)
  | 0, _, _, _ => .error .outOfFuel
  | fuel + 1, value, shift, s => do
    let (byte, s) ← readByte s
    let value := jsOr value (jsShl (jsAnd byte 127) shift)
    if jsAnd byte 128 = 0 then .ok (value, s)
    else readVarIntLoop fuel value (shift + 7) s

/-- The `#readVarInt` primitive (unsigned varint; used for STRING lengths in
varint mode). -/
def readVarInt (fuel : ℕ) (s : S) : Except Err (ℤ × S) :=
  readVarIntLoop fuel 0 0 s

/-- Loop of `#readVarIntZigZag`: accumulate with 32-bit operations, failing with
the varnum-too-large error once `shift` exceeds 63 after a continuation byte. -/
def readVarIntZigZagLoop : ℕ → ℤ → ℤ → S → Except Err (ℤ × S)
  | 0, _, _, _ => .error .outOfFuel
  | fuel + 1, result, shift, s => do
    let _ ← allocate s 1
    let (byte, s) ← readByte s
    let result := jsOr result (jsShl (jsAnd byte 127) shift)
    if jsAnd byte 128 = 0 then .ok (result, s)
    else
      let shift := shift + 7
      if shift > 63 then .error .varNumTooLarge
      else readVarIntZigZagLoop fuel result shift s

/-- The final line of `#readVarIntZigZag`:
`((((result << 63) >> 63) ^ result) >> 1) ^ (result & (1 << 63))`, with all
operations 32-bit (shift counts are taken mod 32). -/
def zigzagDecode32 (result : ℤ) : ℤ :=
  jsXor (jsShr (jsXor (jsShr (jsShl result 63) 63) result) 1) (jsAnd result (jsShl 1 63))

/-- The `#readVarIntZigZag` primitive. -/
def readVarIntZigZag (fuel : ℕ) (s : S) : Except Err (ℤ × S) := do
  let (result, s) ← readVarIntZigZagLoop fuel 0 0 s
  .ok (zigzagDecode32 result, s)

/-- Loop of `#readVarLongZigZag`: accumulate with `BigInt` operations
(arbitrary precision), failing once `shift` exceeds 63 after a continuation
byte; the continuation test `byte & 0x80` is a number operation. -/
def readVarLongZigZagLoop : ℕ → ℤ → ℤ → S → Except Err (ℤ × S)
  | 0, _, _, _ => .error .outOfFuel
  | fuel + 1, result, shift, s => do
    let _ ← allocate s 1
    let (byte, s) ← readByte s
    let result := bigOr result (bigShl (bigAnd byte 127) shift)
    if jsAnd byte 128 = 0 then .ok (result, s)
    else
      let shift := shift + 7
      if shift > 63 then .error .varNumTooLarge
      else readVarLongZigZagLoop fuel result shift s

/-- The final line of `#readVarLongZigZag`: `(result >> 1n) ^ -(result & 1n)`. -/
def zigzagDecode64 (result : ℤ) : ℤ :=
  bigXor (bigShr result 1) (-(bigAnd result 1))

/-- The `#readVarLongZigZag` primitive. -/
def readVarLongZigZag (fuel : ℕ) (s : S) : Except Err (ℤ × S) := do
  let (result, s) ← readVarLongZigZagLoop fuel 0 0 s
  .ok (zigzagDecode64 result, s)


/-! ### The tag model (`tag.ts`) -/

/-- The closed tag-kind enumeration with wire codes 0..12. -/
inductive TAG where
  | END | BYTE | SHORT | INT | LONG | FLOAT | DOUBLE
  | BYTE_ARRAY | STRING | LIST | COMPOUND | INT_ARRAY | LONG_ARRAY
  deriving DecidableEq, Repr

/-- The wire code of each tag kind (the enum's numeric values). -/
def TAG.code : TAG → ℕ
  | .END => 0 | .BYTE => 1 | .SHORT => 2 | .INT => 3 | .LONG => 4
  | .FLOAT => 5 | .DOUBLE => 6 | .BYTE_ARRAY => 7 | .STRING => 8
  | .LIST => 9 | .COMPOUND => 10 | .INT_ARRAY => 11 | .LONG_ARRAY => 12

/-- Reverse mapping of wire codes to tag kinds; `isTagType` of the source is
`(tagOfByte n).isSome`. -/
def tagOfByte : ℕ → Option TAG
  | 0 => some .END | 1 => some .BYTE | 2 => some .SHORT | 3 => some .INT
  | 4 => some .LONG | 5 => some .FLOAT | 6 => some .DOUBLE
  | 7 => some .BYTE_ARRAY | 8 => some .STRING | 9 => some .LIST
  | 10 => some .COMPOUND | 11 => some .INT_ARRAY | 12 => some .LONG_ARRAY
  | _ => none

/-- Element kinds of the `NumericArray` typed buffers
(`Int8Array`, `Int16Array`, `Int32Array`, `BigInt64Array`, `Float32Array`,
`Float64Array`). -/
inductive NumKind where
  | i8 | i16 | i32 | i64 | f32 | f64
  deriving DecidableEq, Repr

/-- The `getAppropriateTypedArray` helper of `tag.ts`: the packed-buffer element
kind for each numeric primitive tag kind, `none` for all other kinds. -/
def getAppropriateTypedArray : TAG → Option NumKind
  | .BYTE => some .i8
  | .SHORT => some .i16
  | .INT => some .i32
  | .LONG => some .i64
  | .FLOAT => some .f32
  | .DOUBLE => some .f64
  | _ => none

/-- Decoded JavaScript values (the `Tag` union of `tag.ts`): numbers, bigints,
strings (as MUTF-8 code units), typed numeric buffers, arrays, and plain
objects (compounds, as a property list in insertion order). -/
inductive JSVal where
  | num (v : ℤ)
  | bigint (v : ℤ)
  | str (bytes : List ℕ)
  | typed (k : NumKind) (vs : List ℤ)
  | arr (vs : List JSVal)
  | obj (entries : List (List ℕ × JSVal))
  deriving Repr

/-- Conversion a typed-array element store performs (`value[i] = entry`):
ToInt8/ToInt16/ToInt32 for the integer kinds, ToBigInt64 for `i64`; the float
kinds keep the raw pattern (IEEE rounding is not modelled — every stored float
entry is itself a raw pattern read by `#readFloat`/`#readDouble`).  Non-numeric
values cannot occur here: the element kind determines the entry shape. -/
def typedStore (k : NumKind) : JSVal → ℤ
  | .num z => match k with
    | .i8 => toSigned8 (pat32 z % 256)
    | .i16 => toSigned16 (pat32 z % 65536)
    | .i32 => toSigned32 (pat32 z)
    | _ => z
  | .bigint z => toSigned64 ((z % 18446744073709551616).toNat)
  | _ => 0

/-! ### JavaScript object property semantics

A decoded COMPOUND is a plain JavaScript object built by `value[name] = entry`.
Property insertion keeps the position of an existing key (overwriting its
value) and appends new keys.  Own-key iteration order per ECMAScript
`OrdinaryOwnPropertyKeys`: keys that are canonical array indexes first, in
ascending numeric order, then the remaining string keys in insertion order. -/

/-- Property assignment `obj[name] = entry` on a property list. -/
def jsSet : List (List ℕ × JSVal) → List ℕ → JSVal → List (List ℕ × JSVal)
  | [], k, v => [(k, v)]
  | (k', v') :: rest, k, v =>
    if k' = k then (k', v) :: rest else (k', v') :: jsSet rest k v

/-- Numeric value of a string of ASCII decimal digits. -/
def decimalValue (bs : List ℕ) : ℕ := bs.foldl (fun acc b => acc * 10 + (b - 48)) 0

/-- Canonical-array-index test on a key (ECMAScript: the decimal string of an
integer below `2^32 - 1`, with no leading zero except for the string "0"). -/
def isArrayIndexKey (bs : List ℕ) : Bool :=
  !bs.isEmpty && bs.all (fun b => 48 ≤ b && b ≤ 57) &&
    (bs.head? ≠ some 48 || bs.length = 1) && decimalValue bs < 4294967295

/-- Own-key iteration order of a plain object (`Object.keys`): canonical array
indexes in ascending numeric order, then the other keys in insertion order. -/
def jsOwnKeys (o : List (List ℕ × JSVal)) : List (List ℕ) :=
  let ks := o.map Prod.fst
  (ks.filter (fun k => isArrayIndexKey k)).insertionSort
      (fun a b => decimalValue a ≤ decimalValue b)
    ++ ks.filter (fun k => !isArrayIndexKey k)

/-- Property lookup on a property list. -/
def jsGet (o : List (List ℕ × JSVal)) (k : List ℕ) : Option JSVal :=
  (o.find? (fun p => p.1 = k)).map Prod.snd

/-! ### The grammar decoder -/

/-- The `subarray(b, e)` method of typed arrays: negative relative indexes count
from the end; indexes are clamped to `[0, length]`; an end before the begin
yields the empty slice. -/
def jsSubarray (d : List ℕ) (b e : ℤ) : List ℕ :=
  let len : ℤ := d.length
  let rel : ℤ → ℕ := fun i => if i < 0 then (len + i).toNat else (min i len).toNat
  ((d.drop (rel b)).take (rel e - rel b)).map (fun x => x % 256)

/-- The `#readTagType` primitive: one unsigned byte, rejected unless it is a
wire code 0..12. -/
def readTagType (s : S) : Except Err (TAG × S) := do
  let (b, s) ← readUnsignedByte s
  match tagOfByte b.toNat with
  | none => .error .invalidTag
  | some t => .ok (t, s)

/-- The length prefix shared by LIST and the three array readers:
`this.#varint ? this.#readVarIntZigZag() : this.#readInt()`. -/
def readArrayLength (fuel : ℕ) (s : S) : Except Err (ℤ × S) :=
  if s.varint then readVarIntZigZag fuel s else readInt s

/-- The `#readString` primitive: an unsigned-varint or unsigned-short length,
then that many bytes (the MUTF-8 decoding being an external black box, the
value is the raw byte slice). -/
def readString (fuel : ℕ) (s : S) : Except Err (List ℕ × S) := do
  let (length, s) ← if s.varint then readVarInt fuel s else readUnsignedShort s
  let _ ← allocate s length
  .ok (jsSubarray s.data s.off (s.off + length), { s with off := s.off + length })

/-- The `#readByteArray` primitive: a (possibly negative) length, the
`#allocate` guard, then `new Int8Array(data.subarray(off, off + length))` and a
cursor advance by `length` — note that nothing rejects a negative length here. -/
def readByteArray (fuel : ℕ) (s : S) : Except Err (JSVal × S) := do
  let (length, s) ← readArrayLength fuel s
  let _ ← allocate s length
  .ok (.typed .i8 ((jsSubarray s.data s.off (s.off + length)).map toSigned8),
    { s with off := s.off + length })

/-- Element loop of `#readIntArray` (`for (const i in value)` visits the
indexes `0 .. length-1`). -/
def readIntArrayLoop : ℕ → List ℤ → S → Except Err (JSVal × S)
  | 0, acc, s => .ok (.typed .i32 acc, s)
  | n + 1, acc, s => do
    let (entry, s) ← readInt s
    readIntArrayLoop n (acc ++ [entry]) s

/-- The `#readIntArray` primitive: `new Int32Array(length)` throws a host
`RangeError` for a negative length; elements are always fixed-width. -/
def readIntArray (fuel : ℕ) (s : S) : Except Err (JSVal × S) := do
  let (length, s) ← readArrayLength fuel s
  if length < 0 then .error .rangeError
  else readIntArrayLoop length.toNat [] s

/-- Element loop of `#readLongArray`. -/
def readLongArrayLoop : ℕ → List ℤ → S → Except Err (JSVal × S)
  | 0, acc, s => .ok (.typed .i64 acc, s)
  | n + 1, acc, s => do
    let (entry, s) ← readLong s
    readLongArrayLoop n (acc ++ [entry]) s

/-- The `#readLongArray` primitive: `new BigInt64Array(length)` throws a host
`RangeError` for a negative length. -/
def readLongArray (fuel : ℕ) (s : S) : Except Err (JSVal × S) := do
  let (length, s) ← readArrayLength fuel s
  if length < 0 then .error .rangeError
  else readLongArrayLoop length.toNat [] s

mutual

/-- The `#readTag` dispatch.  An END kind at tag dispatch throws the
unexpected-end-tag error (the `UnexpectedEndTagError` class); the source's
`default` branch (invalid-tag) is unreachable because `#readTagType` already
validated the code.  INT and LONG switch to the ZigZag varints in varint mode. -/
def readTag : ℕ → TAG → S → Except Err (JSVal × S)
  | 0, _, _ => .error .outOfFuel
  | fuel + 1, t, s =>
    match t with
    | .END => .error .unexpectedEndTag
    | .BYTE => do let (v, s) ← readByte s; .ok (.num v, s)
    | .SHORT => do let (v, s) ← readShort s; .ok (.num v, s)
    | .INT => do
      let (v, s) ← if s.varint then readVarIntZigZag fuel s else readInt s
      .ok (.num v, s)
    | .LONG => do
      let (v, s) ← if s.varint then readVarLongZigZag fuel s else readLong s
      .ok (.bigint v, s)
    | .FLOAT => do let (v, s) ← readFloat s; .ok (.num v, s)
    | .DOUBLE => do let (v, s) ← readDouble s; .ok (.num v, s)
    | .BYTE_ARRAY => readByteArray fuel s
    | .STRING => do let (v, s) ← readString fuel s; .ok (.str v, s)
    | .LIST => readList fuel s
    | .COMPOUND => do
      let (v, s) ← readCompoundLoop fuel [] s
      .ok (.obj v, s)
    | .INT_ARRAY => readIntArray fuel s
    | .LONG_ARRAY => readLongArray fuel s

/-- The `#readList` reader: element kind, then length, then either a packed
typed buffer (`getAppropriateTypedArray` hit; negative length makes the typed
array constructor throw a host `RangeError`) or a plain array of child tags
(`for (let i = 0; i < length; i++)`, which runs zero times for a negative
length). -/
def readList : ℕ → S → Except Err (JSVal × S)
  | 0, _ => .error .outOfFuel
  | fuel + 1, s => do
    let (t, s) ← readTagType s
    let (length, s) ← readArrayLength fuel s
    match getAppropriateTypedArray t with
    | some k =>
      if length < 0 then .error .rangeError
      else readListTyped fuel k t length.toNat [] s
    | none => readListArr fuel t length.toNat [] s

/-- Element-filling loop of the packed branch of `#readList`. -/
def readListTyped : ℕ → NumKind → TAG → ℕ → List ℤ → S → Except Err (JSVal × S)
  | 0, _, _, _, _, _ => .error .outOfFuel
  | _ + 1, k, _, 0, acc, s => .ok (.typed k acc, s)
  | fuel + 1, k, t, n + 1, acc, s => do
    let (entry, s) ← readTag fuel t s
    readListTyped fuel k t n (acc ++ [typedStore k entry]) s

/-- Element-accumulating loop of the plain branch of `#readList`. -/
def readListArr : ℕ → TAG → ℕ → List JSVal → S → Except Err (JSVal × S)
  | 0, _, _, _, _ => .error .outOfFuel
  | _ + 1, _, 0, acc, s => .ok (.arr acc, s)
  | fuel + 1, t, n + 1, acc, s => do
    let (entry, s) ← readTag fuel t s
    readListArr fuel t n (acc ++ [entry]) s

/-- The `while (true)` loop of `#readCompound`: kind byte; END terminates;
otherwise a name string, a child of that kind, and `value[name] = entry`. -/
def readCompoundLoop : ℕ → List (List ℕ × JSVal) → S → Except Err (List (List ℕ × JSVal) × S)
  | 0, _, _ => .error .outOfFuel
  | fuel + 1, acc, s => do
    let (t, s) ← readTagType s
    if t = .END then .ok (acc, s)
    else do
      let (name, s) ← readString fuel s
      let (entry, s) ← readTag fuel t s
      readCompoundLoop fuel (jsSet acc name entry) s

end

/-- The `#readCompound` reader (its loop starting from the empty object). -/
def readCompound (fuel : ℕ) (s : S) : Except Err (List (List ℕ × JSVal) × S) :=
  readCompoundLoop fuel [] s


/-! ### The format driver (`read`, `readRoot`) -/

/-- The endian dialects. -/
inductive Endian where
  | big | little | littleVarint
  deriving DecidableEq, Repr

/-- The compression schemes; the JS `null` ("no compression") is `Option`'s
`none` at use sites. -/
inductive Compression where
  | gzip | deflate | deflateRaw
  deriving DecidableEq, Repr

/-- A resolved `rootName` option value: `boolean | RootName` where `RootName`
is `string | null`. -/
inductive RootNameArg where
  | bool (b : Bool) | str (bytes : List ℕ) | null
  deriving DecidableEq, Repr

/-- A resolved `bedrockLevel` option value: `boolean | number | null`. -/
inductive BedrockLevelArg where
  | bool (b : Bool) | num (v : ℤ) | null
  deriving DecidableEq, Repr

/-- JavaScript truthiness of a `bedrockLevel` value. -/
def BedrockLevelArg.truthy : BedrockLevelArg → Bool
  | .bool b => b
  | .num v => v ≠ 0
  | .null => false

/-- Whether `typeof rootName === "string" || rootName` holds (the root-name
read guard in `readRoot`). -/
def RootNameArg.readsName : RootNameArg → Bool
  | .bool b => b
  | .str _ => true
  | .null => false

/-- Fully resolved `ReadOptions` handed to `readRoot`. -/
structure ReadOptions where
  rootName : RootNameArg
  endian : Endian
  compression : Option Compression
  bedrockLevel : BedrockLevelArg
  strict : Bool

/-- Partial options (`Partial<ReadOptions>`) given to `read`; `none` is the
JS `undefined` ("auto-detect"); `strict` defaults to `true` by destructuring. -/
structure Hints where
  rootName : Option RootNameArg := none
  endian : Option Endian := none
  compression : Option (Option Compression) := none
  bedrockLevel : Option BedrockLevelArg := none
  strict : Bool := true

/-- The decompression collaborator (`decompress(data, format)`), a black box
per the spec (§1/§6); `none` models any failure it throws. -/
def Dec : Type := List ℕ → Compression → Option (List ℕ)

/-- Modelled from the spec: the `NBTData` result container lives in
`format.ts`, which is not among the provided sources.  Per the spec (§6) the
result carries the root value, the resolved framing parameters, and — when
`strict` is `false` — the final byte offset reached (`read.ts` assigns
`result.byteOffset` in that case). -/
structure NBTData where
  data : JSVal
  rootName : Option (List ℕ)
  endian : Endian
  compression : Option Compression
  bedrockLevel : BedrockLevelArg
  byteOffset : Option ℤ := none
  deriving Repr

/-- The `hasGzipHeader` peek: `getUint16(0, false) === 0x1F8B`.  The
`DataView` access itself throws a host `RangeError` when fewer than two bytes
exist. -/
def hasGzipHeader (s : S) : Except Err Bool :=
  if 2 ≤ s.data.length then .ok (decide (bytesBE s.data 0 2 = 0x1F8B))
  else .error .rangeError

/-- The `hasZlibHeader` peek: `getUint8(0) === 0x78`, with the same `DataView`
bounds behavior on an empty buffer. -/
def hasZlibHeader (s : S) : Except Err Bool :=
  if 1 ≤ s.data.length then .ok (decide (byteAt s.data 0 = 0x78))
  else .error .rangeError

/-- The `hasBedrockLevelHeader` peek: endian is little, at least 8 bytes, and
the little-endian 32-bit value at offset 4 equals the byte length minus 8. -/
def hasBedrockLevelHeader (s : S) (endian : Endian) : Bool :=
  if endian ≠ Endian.little ∨ s.data.length < 8 then false
  else decide (bytesLE s.data 4 4 = s.data.length - 8)

/-- The decompression step at the top of `readRoot`: when a scheme is set,
`this.#data = await decompress(this.#data, compression)` replaces the reader's
bytes with the output of the host decompressor `dec` (which may fail);
otherwise the reader is untouched. -/
def decompressStep (dec : Dec) (s : S) (c : Option Compression) : Except Err S :=
  match c with
  | some c =>
    match dec s.data c with
    | none => Except.error Err.decompressError
    | some d => Except.ok { s with data := d }
  | none => Except.ok s

/-- The bedrock-header step of `readRoot`: when `bedrockLevel` is truthy, two
`#readUnsignedInt()` calls skip the 8 header bytes. -/
def skipBedrockHeader (s : S) (b : BedrockLevelArg) : Except Err S :=
  if b.truthy then do
    let (_, s) ← readUnsignedInt s
    let (_, s) ← readUnsignedInt s
    Except.ok s
  else Except.ok s

/-- The root-name step of `readRoot`:
`typeof rootName === "string" || rootName ? this.#readString() : null`. -/
def readRootName (fuel : ℕ) (s : S) (n : RootNameArg) :
    Except Err (Option (List ℕ) × S) :=
  if n.readsName then do
    let (nm, s) ← readString fuel s
    Except.ok (some nm, s)
  else Except.ok ((none : Option (List ℕ)), s)

/-- The root-name comparison of `readRoot`: an exact-string hint must match
the name just read, else `UnexpectedRootNameError`. -/
def checkRootName (n : RootNameArg) (rootNameV : Option (List ℕ)) :
    Except Err Unit :=
  match n with
  | .str expected =>
    if rootNameV ≠ some expected then .error .unexpectedRootName else .ok ()
  | _ => .ok ()

/-- The `readRoot` method: decompress `#data` in place if a scheme is set,
skip the 8 header bytes when `bedrockLevel` is truthy, require an opening LIST
or COMPOUND kind, read the root name when requested (comparing against an
exact-string hint), read the root tag, enforce the strict trailing-bytes rule,
and assemble the result (recording the final offset when not strict). -/
def readRoot (dec : Dec) (fuel : ℕ) (s : S) (o : ReadOptions) : Except Err NBTData := do
  let s ← decompressStep dec s o.compression
  let s ← skipBedrockHeader s o.bedrockLevel
  let (t, s) ← readTagType s
  if t ≠ TAG.LIST ∧ t ≠ TAG.COMPOUND then .error .invalidOpeningTag
  else do
    let (rootNameV, s) ← readRootName fuel s o.rootName
    let _ ← checkRootName o.rootName rootNameV
    let (root, s) ← readTag fuel t s
    if o.strict ∧ (s.data.length : ℤ) > s.off then .error .unexpectedEndTag
    else
      Except.ok
        { data := root, rootName := rootNameV, endian := o.endian,
          compression := o.compression, bedrockLevel := o.bedrockLevel,
          byteOffset := if o.strict then none else some s.off }

mutual

/-- The public `read` driver.  `gas` bounds the speculative re-entry depth of
the embedding (each re-entry resolves one absent hint, so any `gas` past the
number of absent hints behaves identically); `fuel` is the tag-recursion fuel
passed through to the grammar decoder.  With no compression hint: sniff the
gzip then zlib magic on the *original* reader (either sniff can itself throw on
a too-short buffer), and otherwise speculate `null` then `deflate-raw`,
surfacing the first error. -/
def read (dec : Dec) (fuel : ℕ) : ℕ → List ℕ → Hints → Except Err NBTData
  | 0, _, _ => .error .outOfFuel
  | gas + 1, data, o =>
    let reader : S :=
      { data := data, off := 0,
        littleEndian := o.endian ≠ some Endian.big,
        varint := o.endian = some Endian.littleVarint }
    match o.compression with
    | none =>
      match hasGzipHeader reader with
      | .error e => .error e
      | .ok true => readResolvedCompression dec fuel gas data o reader (some .gzip)
      | .ok false =>
        match hasZlibHeader reader with
        | .error e => .error e
        | .ok true => readResolvedCompression dec fuel gas data o reader (some .deflate)
        | .ok false =>
          match read dec fuel gas data { o with compression := some none } with
          | .ok r => .ok r
          | .error e₁ =>
            match read dec fuel gas data { o with compression := some (some .deflateRaw) } with
            | .ok r => .ok r
            | .error _ => .error e₁
    | some c => readResolvedCompression dec fuel gas data o reader c

/-- Continuation of `read` once the compression scheme is known (the code after
the labeled `compression:` block): speculate the endian axis (big, little,
little-varint — surfacing the first error), then the root-name axis (`true`
then `false`), then decompress the *local* `data` binding (whose result is
never used again — the reader keeps the original bytes), resolve an absent
`bedrockLevel` hint with the header peek on that reader, and call `readRoot`. -/
def readResolvedCompression (dec : Dec) (fuel : ℕ) :
    ℕ → List ℕ → Hints → S → Option Compression → Except Err NBTData
  | 0, _, _, _, _ => .error .outOfFuel
  | gas + 1, data, o, reader, c =>
  match o.endian with
  | none =>
    match read dec fuel gas data { o with endian := some Endian.big } with
    | .ok r => .ok r
    | .error e₁ =>
      match read dec fuel gas data { o with endian := some Endian.little } with
      | .ok r => .ok r
      | .error _ =>
        match read dec fuel gas data { o with endian := some Endian.littleVarint } with
        | .ok r => .ok r
        | .error _ => .error e₁
  | some endian =>
    match o.rootName with
    | none =>
      match read dec fuel gas data { o with rootName := some (RootNameArg.bool true) } with
      | .ok r => .ok r
      | .error e₁ =>
        match read dec fuel gas data { o with rootName := some (RootNameArg.bool false) } with
        | .ok r => .ok r
        | .error _ => .error e₁
    | some rootName =>
      let dataStep : Except Err (List ℕ) := match c with
        | some scheme =>
          match dec data scheme with
          | none => .error .decompressError
          | some d => .ok d
        | none => .ok data
      match dataStep with
      | .error e => .error e
      | .ok _ =>
        let bedrockLevel : BedrockLevelArg := match o.bedrockLevel with
          | some b => b
          | none => .bool (hasBedrockLevelHeader reader endian)
        readRoot dec fuel reader
          { rootName := rootName, endian := endian,
            compression := c, bedrockLevel := bedrockLevel, strict := o.strict }

end


/-! ### Spec-side definitions, named after the spec's words, for comparison
with the source embedding above -/

/-- ZigZag decoding as the spec words it (§4.1): unsigned `n` maps to the
signed value `(n >> 1) XOR -(n AND 1)` (two's complement integer XOR). -/
def zigzagSpec (n : ℕ) : ℤ := bigXor ((n >>> 1 : ℕ) : ℤ) (-((n &&& 1 : ℕ) : ℤ))

/-- ZigZag encoding of a signed 64-bit integer as the claim words it:
`(n << 1) XOR (n >> 63)` with an arithmetic right shift. -/
def zigzagEncode (n : ℤ) : ℕ := (bigXor (bigShl n 1) (n >>> (63 : ℕ))).toNat

/-- Standard LEB128 varint encoding of an unsigned value: low 7 bits per byte,
continuation bit on every byte but the last. -/
def varintEncode (u : ℕ) : List ℕ :=
  if u < 128 then [u] else (u % 128 + 128) :: varintEncode (u / 128)
termination_by u
decreasing_by omega

/-- Wire-order entry collector for COMPOUND, following the spec's words
("A COMPOUND's keys appear in first-occurrence wire order; duplicate keys
overwrite earlier values"): it performs exactly the reads of
`readCompoundLoop` but records every `(name, entry)` pair in wire order
without collapsing duplicates. -/
def readCompoundEntries : ℕ → List (List ℕ × JSVal) → S →
    Except Err (List (List ℕ × JSVal) × S)
  | 0, _, _ => .error .outOfFuel
  | fuel + 1, acc, s => do
    let (t, s) ← readTagType s
    if t = .END then .ok (acc, s)
    else do
      let (name, s) ← readString fuel s
      let (entry, s) ← readTag fuel t s
      readCompoundEntries fuel (acc ++ [(name, entry)]) s

/-- First-occurrence order of a key sequence with duplicates removed. -/
def dedupFirst (ks : List (List ℕ)) : List (List ℕ) :=
  ks.foldl (fun acc k => if k ∈ acc then acc else acc ++ [k]) []

/-- Value of the last wire occurrence of a key among collected entries. -/
def lastValue : List (List ℕ × JSVal) → List ℕ → Option JSVal
  | [], _ => none
  | (n, e) :: es, k =>
    match lastValue es k with
    | some v => some v
    | none => if n = k then some e else none

/-- The object obtained by performing the JS property assignments of a wire
entry sequence in order, starting from the empty object. -/
def buildObj (es : List (List ℕ × JSVal)) : List (List ℕ × JSVal) :=
  es.foldl (fun o p => jsSet o p.1 p.2) []

/-! ### State preservation: every reader leaves data and mode flags intact -/

/-- Immutable-field preservation: every reader only moves the cursor. -/
def Pres (s s' : S) : Prop :=
  s'.data = s.data ∧ s'.littleEndian = s.littleEndian ∧ s'.varint = s.varint

theorem Pres.refl (s : S) : Pres s s := ⟨rfl, rfl, rfl⟩

theorem Pres.trans {a b c : S} (h1 : Pres a b) (h2 : Pres b c) : Pres a c :=
  ⟨h2.1.trans h1.1, h2.2.1.trans h1.2.1, h2.2.2.trans h1.2.2⟩

theorem bind_ok {α β : Type} {m : Except Err α} {f : α → Except Err β} {b : β}
    (h : (m >>= f) = .ok b) : ∃ a, m = .ok a ∧ f a = .ok b := by
  cases m with
  | error e => simp [Except.bind, bind] at h
  | ok a => exact ⟨a, rfl, by simpa [Except.bind, bind] using h⟩

theorem readFixed_ok {s : S} {w : ℕ} {v : ℕ} {s' : S} (h : readFixed s w = .ok (v, s')) :
    s' = { s with off := s.off + w } := by
  unfold readFixed allocate viewCheck at h
  by_cases h1 : s.off + (w : ℤ) > (s.data.length : ℤ)
  · rw [if_pos h1] at h
    simp [Except.bind, bind] at h
  · rw [if_neg h1] at h
    by_cases h2 : 0 ≤ s.off ∧ s.off + (w : ℤ) ≤ (s.data.length : ℤ)
    · rw [if_pos h2] at h
      simp [Except.bind, bind] at h
      exact h.2.symm
    · rw [if_neg h2] at h
      simp [Except.bind, bind] at h

theorem readFixed_pres {s : S} {w : ℕ} {v : ℕ} {s' : S}
    (h : readFixed s w = .ok (v, s')) : Pres s s' := by
  rw [readFixed_ok h]
  exact ⟨rfl, rfl, rfl⟩

theorem readByte_pres {s : S} {v : ℤ} {s' : S} (h : readByte s = .ok (v, s')) :
    Pres s s' := by
  unfold readByte at h
  obtain ⟨⟨b, s₁⟩, h1, h2⟩ := bind_ok h
  simp at h2
  rw [← h2.2]
  exact readFixed_pres h1

theorem readUnsignedByte_pres {s : S} {v : ℤ} {s' : S}
    (h : readUnsignedByte s = .ok (v, s')) : Pres s s' := by
  unfold readUnsignedByte at h
  obtain ⟨⟨b, s₁⟩, h1, h2⟩ := bind_ok h
  simp at h2
  rw [← h2.2]
  exact readFixed_pres h1

theorem readUnsignedShort_pres {s : S} {v : ℤ} {s' : S}
    (h : readUnsignedShort s = .ok (v, s')) : Pres s s' := by
  unfold readUnsignedShort at h
  obtain ⟨⟨b, s₁⟩, h1, h2⟩ := bind_ok h
  simp at h2
  rw [← h2.2]
  exact readFixed_pres h1

theorem readShort_pres {s : S} {v : ℤ} {s' : S} (h : readShort s = .ok (v, s')) :
    Pres s s' := by
  unfold readShort at h
  obtain ⟨⟨b, s₁⟩, h1, h2⟩ := bind_ok h
  simp at h2
  rw [← h2.2]
  exact readFixed_pres h1

theorem readUnsignedInt_pres {s : S} {v : ℤ} {s' : S}
    (h : readUnsignedInt s = .ok (v, s')) : Pres s s' := by
  unfold readUnsignedInt at h
  obtain ⟨⟨b, s₁⟩, h1, h2⟩ := bind_ok h
  simp at h2
  rw [← h2.2]
  exact readFixed_pres h1

theorem readInt_pres {s : S} {v : ℤ} {s' : S} (h : readInt s = .ok (v, s')) :
    Pres s s' := by
  unfold readInt at h
  obtain ⟨⟨b, s₁⟩, h1, h2⟩ := bind_ok h
  simp at h2
  rw [← h2.2]
  exact readFixed_pres h1

theorem readLong_pres {s : S} {v : ℤ} {s' : S} (h : readLong s = .ok (v, s')) :
    Pres s s' := by
  unfold readLong at h
  obtain ⟨⟨b, s₁⟩, h1, h2⟩ := bind_ok h
  simp at h2
  rw [← h2.2]
  exact readFixed_pres h1

theorem readFloat_pres {s : S} {v : ℤ} {s' : S} (h : readFloat s = .ok (v, s')) :
    Pres s s' := by
  unfold readFloat at h
  obtain ⟨⟨b, s₁⟩, h1, h2⟩ := bind_ok h
  simp at h2
  rw [← h2.2]
  exact readFixed_pres h1

theorem readDouble_pres {s : S} {v : ℤ} {s' : S} (h : readDouble s = .ok (v, s')) :
    Pres s s' := by
  unfold readDouble at h
  obtain ⟨⟨b, s₁⟩, h1, h2⟩ := bind_ok h
  simp at h2
  rw [← h2.2]
  exact readFixed_pres h1

theorem readTagType_pres {s : S} {t : TAG} {s' : S} (h : readTagType s = .ok (t, s')) :
    Pres s s' := by
  unfold readTagType at h
  obtain ⟨⟨b, s₁⟩, h1, h2⟩ := bind_ok h
  cases hb : tagOfByte b.toNat with
  | none => simp [hb] at h2
  | some t' =>
    simp only [hb] at h2
    simp at h2
    rw [← h2.2]
    exact readUnsignedByte_pres h1

theorem readVarIntLoop_pres : ∀ (fuel : ℕ) (value shift : ℤ) (s : S) (v : ℤ) (s' : S),
    readVarIntLoop fuel value shift s = .ok (v, s') → Pres s s' := by
  intro fuel
  induction fuel with
  | zero =>
    intro value shift s v s' h
    simp [readVarIntLoop] at h
  | succ f ih =>
    intro value shift s v s' h
    unfold readVarIntLoop at h
    obtain ⟨⟨b, s₁⟩, h1, h2⟩ := bind_ok h
    simp only [] at h2
    split at h2
    · simp at h2
      rw [← h2.2]
      exact readByte_pres h1
    · exact (readByte_pres h1).trans (ih _ _ _ _ _ h2)

theorem readVarIntZigZagLoop_pres :
    ∀ (fuel : ℕ) (value shift : ℤ) (s : S) (v : ℤ) (s' : S),
    readVarIntZigZagLoop fuel value shift s = .ok (v, s') → Pres s s' := by
  intro fuel
  induction fuel with
  | zero =>
    intro value shift s v s' h
    simp [readVarIntZigZagLoop] at h
  | succ f ih =>
    intro value shift s v s' h
    unfold readVarIntZigZagLoop at h
    obtain ⟨u, hu, h⟩ := bind_ok h
    obtain ⟨⟨b, s₁⟩, h1, h2⟩ := bind_ok h
    simp only [] at h2
    split at h2
    · simp at h2
      rw [← h2.2]
      exact readByte_pres h1
    · split at h2
      · simp at h2
      · exact (readByte_pres h1).trans (ih _ _ _ _ _ h2)

theorem readVarLongZigZagLoop_pres :
    ∀ (fuel : ℕ) (value shift : ℤ) (s : S) (v : ℤ) (s' : S),
    readVarLongZigZagLoop fuel value shift s = .ok (v, s') → Pres s s' := by
  intro fuel
  induction fuel with
  | zero =>
    intro value shift s v s' h
    simp [readVarLongZigZagLoop] at h
  | succ f ih =>
    intro value shift s v s' h
    unfold readVarLongZigZagLoop at h
    obtain ⟨u, hu, h⟩ := bind_ok h
    obtain ⟨⟨b, s₁⟩, h1, h2⟩ := bind_ok h
    simp only [] at h2
    split at h2
    · simp at h2
      rw [← h2.2]
      exact readByte_pres h1
    · split at h2
      · simp at h2
      · exact (readByte_pres h1).trans (ih _ _ _ _ _ h2)

theorem readVarIntZigZag_pres {fuel : ℕ} {s : S} {v : ℤ} {s' : S}
    (h : readVarIntZigZag fuel s = .ok (v, s')) : Pres s s' := by
  unfold readVarIntZigZag at h
  obtain ⟨⟨r, s₁⟩, h1, h2⟩ := bind_ok h
  simp at h2
  rw [← h2.2]
  exact readVarIntZigZagLoop_pres _ _ _ _ _ _ h1

theorem readVarLongZigZag_pres {fuel : ℕ} {s : S} {v : ℤ} {s' : S}
    (h : readVarLongZigZag fuel s = .ok (v, s')) : Pres s s' := by
  unfold readVarLongZigZag at h
  obtain ⟨⟨r, s₁⟩, h1, h2⟩ := bind_ok h
  simp at h2
  rw [← h2.2]
  exact readVarLongZigZagLoop_pres _ _ _ _ _ _ h1

theorem readString_pres {fuel : ℕ} {s : S} {v : List ℕ} {s' : S}
    (h : readString fuel s = .ok (v, s')) : Pres s s' := by
  unfold readString at h
  simp only [] at h
  split at h
  · obtain ⟨⟨length, s₁⟩, h1, h2⟩ := bind_ok h
    simp only [] at h2
    obtain ⟨u, hu, h2⟩ := bind_ok h2
    simp at h2
    rw [← h2.2]
    exact (readVarIntLoop_pres _ _ _ _ _ _ h1).trans ⟨rfl, rfl, rfl⟩
  · obtain ⟨⟨length, s₁⟩, h1, h2⟩ := bind_ok h
    simp only [] at h2
    obtain ⟨u, hu, h2⟩ := bind_ok h2
    simp at h2
    rw [← h2.2]
    exact (readUnsignedShort_pres h1).trans ⟨rfl, rfl, rfl⟩

theorem readArrayLength_pres {fuel : ℕ} {s : S} {v : ℤ} {s' : S}
    (h : readArrayLength fuel s = .ok (v, s')) : Pres s s' := by
  unfold readArrayLength at h
  split at h
  · exact readVarIntZigZag_pres h
  · exact readInt_pres h

theorem readByteArray_pres {fuel : ℕ} {s : S} {v : JSVal} {s' : S}
    (h : readByteArray fuel s = .ok (v, s')) : Pres s s' := by
  unfold readByteArray at h
  simp only [] at h
  obtain ⟨⟨length, s₁⟩, h1, h2⟩ := bind_ok h
  simp only [] at h2
  obtain ⟨u, hu, h2⟩ := bind_ok h2
  simp at h2
  refine (readArrayLength_pres h1).trans ?_
  rw [← h2.2]
  exact ⟨rfl, rfl, rfl⟩

theorem readIntArrayLoop_pres : ∀ (n : ℕ) (acc : List ℤ) (s : S) (v : JSVal) (s' : S),
    readIntArrayLoop n acc s = .ok (v, s') → Pres s s' := by
  intro n
  induction n with
  | zero =>
    intro acc s v s' h
    simp [readIntArrayLoop] at h
    rw [← h.2]
    exact Pres.refl s
  | succ m ih =>
    intro acc s v s' h
    unfold readIntArrayLoop at h
    obtain ⟨⟨e, s₁⟩, h1, h2⟩ := bind_ok h
    exact (readInt_pres h1).trans (ih _ _ _ _ h2)

theorem readLongArrayLoop_pres : ∀ (n : ℕ) (acc : List ℤ) (s : S) (v : JSVal) (s' : S),
    readLongArrayLoop n acc s = .ok (v, s') → Pres s s' := by
  intro n
  induction n with
  | zero =>
    intro acc s v s' h
    simp [readLongArrayLoop] at h
    rw [← h.2]
    exact Pres.refl s
  | succ m ih =>
    intro acc s v s' h
    unfold readLongArrayLoop at h
    obtain ⟨⟨e, s₁⟩, h1, h2⟩ := bind_ok h
    exact (readLong_pres h1).trans (ih _ _ _ _ h2)

theorem readIntArray_pres {fuel : ℕ} {s : S} {v : JSVal} {s' : S}
    (h : readIntArray fuel s = .ok (v, s')) : Pres s s' := by
  unfold readIntArray at h
  obtain ⟨⟨length, s₁⟩, h1, h2⟩ := bind_ok h
  simp only [] at h2
  split at h2
  · simp at h2
  · exact (readArrayLength_pres h1).trans (readIntArrayLoop_pres _ _ _ _ _ h2)

theorem readLongArray_pres {fuel : ℕ} {s : S} {v : JSVal} {s' : S}
    (h : readLongArray fuel s = .ok (v, s')) : Pres s s' := by
  unfold readLongArray at h
  obtain ⟨⟨length, s₁⟩, h1, h2⟩ := bind_ok h
  simp only [] at h2
  split at h2
  · simp at h2
  · exact (readArrayLength_pres h1).trans (readLongArrayLoop_pres _ _ _ _ _ h2)

theorem readTag_pres_all : ∀ (fuel : ℕ),
    (∀ t s v s', readTag fuel t s = .ok (v, s') → Pres s s') ∧
    (∀ s v s', readList fuel s = .ok (v, s') → Pres s s') ∧
    (∀ k t n acc s v s', readListTyped fuel k t n acc s = .ok (v, s') → Pres s s') ∧
    (∀ t n acc s v s', readListArr fuel t n acc s = .ok (v, s') → Pres s s') ∧
    (∀ acc s v s', readCompoundLoop fuel acc s = .ok (v, s') → Pres s s') := by
  intro fuel
  induction fuel with
  | zero =>
    refine ⟨?_, ?_, ?_, ?_, ?_⟩
    · intro t s v s' h; simp [readTag] at h
    · intro s v s' h; simp [readList] at h
    · intro k t n acc s v s' h; simp [readListTyped] at h
    · intro t n acc s v s' h; simp [readListArr] at h
    · intro acc s v s' h; simp [readCompoundLoop] at h
  | succ f ih =>
    obtain ⟨ihTag, ihList, ihTyped, ihArr, ihComp⟩ := ih
    have hTag : ∀ t s v s', readTag (f + 1) t s = .ok (v, s') → Pres s s' := by
      intro t s v s' h
      unfold readTag at h
      cases t with
      | END => simp at h
      | BYTE =>
        obtain ⟨⟨b, s₁⟩, h1, h2⟩ := bind_ok h
        simp at h2
        rw [← h2.2]
        exact readByte_pres h1
      | SHORT =>
        obtain ⟨⟨b, s₁⟩, h1, h2⟩ := bind_ok h
        simp at h2
        rw [← h2.2]
        exact readShort_pres h1
      | INT =>
        simp only [] at h
        split at h
        · obtain ⟨⟨b, s₁⟩, h1, h2⟩ := bind_ok h
          simp at h2
          rw [← h2.2]
          exact readVarIntZigZag_pres h1
        · obtain ⟨⟨b, s₁⟩, h1, h2⟩ := bind_ok h
          simp at h2
          rw [← h2.2]
          exact readInt_pres h1
      | LONG =>
        simp only [] at h
        split at h
        · obtain ⟨⟨b, s₁⟩, h1, h2⟩ := bind_ok h
          simp at h2
          rw [← h2.2]
          exact readVarLongZigZag_pres h1
        · obtain ⟨⟨b, s₁⟩, h1, h2⟩ := bind_ok h
          simp at h2
          rw [← h2.2]
          exact readLong_pres h1
      | FLOAT =>
        obtain ⟨⟨b, s₁⟩, h1, h2⟩ := bind_ok h
        simp at h2
        rw [← h2.2]
        exact readFloat_pres h1
      | DOUBLE =>
        obtain ⟨⟨b, s₁⟩, h1, h2⟩ := bind_ok h
        simp at h2
        rw [← h2.2]
        exact readDouble_pres h1
      | BYTE_ARRAY => exact readByteArray_pres h
      | STRING =>
        obtain ⟨⟨b, s₁⟩, h1, h2⟩ := bind_ok h
        simp at h2
        rw [← h2.2]
        exact readString_pres h1
      | LIST => exact ihList _ _ _ h
      | COMPOUND =>
        obtain ⟨⟨b, s₁⟩, h1, h2⟩ := bind_ok h
        simp at h2
        rw [← h2.2]
        exact ihComp _ _ _ _ h1
      | INT_ARRAY => exact readIntArray_pres h
      | LONG_ARRAY => exact readLongArray_pres h
    refine ⟨hTag, ?_, ?_, ?_, ?_⟩
    · intro s v s' h
      unfold readList at h
      obtain ⟨⟨t, s₁⟩, h1, h2⟩ := bind_ok h
      simp only [] at h2
      obtain ⟨⟨length, s₂⟩, h2, h3⟩ := bind_ok h2
      simp only [] at h3
      refine (readTagType_pres h1).trans ((readArrayLength_pres h2).trans ?_)
      cases hk : getAppropriateTypedArray t with
      | some k =>
        simp only [hk] at h3
        split at h3
        · simp at h3
        · exact ihTyped _ _ _ _ _ _ _ h3
      | none =>
        simp only [hk] at h3
        exact ihArr _ _ _ _ _ _ h3
    · intro k t n acc s v s' h
      match n with
      | 0 =>
        unfold readListTyped at h
        simp at h
        rw [← h.2]
        exact Pres.refl s
      | m + 1 =>
        unfold readListTyped at h
        obtain ⟨⟨e, s₁⟩, h1, h2⟩ := bind_ok h
        exact (ihTag _ _ _ _ h1).trans (ihTyped _ _ _ _ _ _ _ h2)
    · intro t n acc s v s' h
      match n with
      | 0 =>
        unfold readListArr at h
        simp at h
        rw [← h.2]
        exact Pres.refl s
      | m + 1 =>
        unfold readListArr at h
        obtain ⟨⟨e, s₁⟩, h1, h2⟩ := bind_ok h
        exact (ihTag _ _ _ _ h1).trans (ihArr _ _ _ _ _ _ h2)
    · intro acc s v s' h
      unfold readCompoundLoop at h
      obtain ⟨⟨t, s₁⟩, h1, h2⟩ := bind_ok h
      simp only [] at h2
      refine (readTagType_pres h1).trans ?_
      split at h2
      · simp at h2
        rw [← h2.2]
        exact Pres.refl s₁
      · obtain ⟨⟨name, s₂⟩, h2, h3⟩ := bind_ok h2
        simp only [] at h3
        obtain ⟨⟨e, s₃⟩, h3, h4⟩ := bind_ok h3
        simp only [] at h4
        exact (readString_pres h2).trans ((ihTag _ _ _ _ h3).trans (ihComp _ _ _ _ h4))

theorem readTag_pres {fuel : ℕ} {t : TAG} {s : S} {v : JSVal} {s' : S}
    (h : readTag fuel t s = .ok (v, s')) : Pres s s' :=
  (readTag_pres_all fuel).1 t s v s' h

/-! ### Arithmetic toolbox: 32-bit patterns, two's complement, bit lemmas -/

theorem pat32_lt (i : ℤ) : pat32 i < 4294967296 := by
  unfold pat32; omega

theorem pat32_natCast (n : ℕ) : pat32 (n : ℤ) = n % 4294967296 := by
  unfold pat32; omega

theorem pat32_negSucc (m : ℕ) :
    pat32 (Int.negSucc m) = 4294967295 - m % 4294967296 := by
  unfold pat32; simp only [Int.negSucc_eq]; omega

theorem pat32_toSigned32 (n : ℕ) : pat32 (toSigned32 n) = n % 4294967296 := by
  unfold pat32 toSigned32; split <;> omega

theorem toSigned32_congr {a b : ℕ} (h : a % 4294967296 = b % 4294967296) :
    toSigned32 a = toSigned32 b := by
  unfold toSigned32; rw [h]

theorem toSigned32_of_lt {n : ℕ} (h : n < 2147483648) : toSigned32 n = (n : ℤ) := by
  unfold toSigned32; split <;> omega

theorem toSigned32_eq_negSucc {m : ℕ} (h1 : 2147483648 ≤ m) (h2 : m < 4294967296) :
    toSigned32 m = Int.negSucc (4294967295 - m) := by
  unfold toSigned32; simp only [Int.negSucc_eq]; split <;> omega

theorem negSucc_shiftRight (m k : ℕ) : (Int.negSucc m) >>> k = Int.negSucc (m >>> k) := rfl

theorem ofNat_shiftRight (m k : ℕ) : ((m : ℤ)) >>> k = ((m >>> k : ℕ) : ℤ) := rfl

theorem xor_two_pow_sub_one {w x : ℕ} (h : x < 2 ^ w) :
    x ^^^ (2 ^ w - 1) = 2 ^ w - 1 - x := by
  have hx : 2 ^ w - 1 - x = 2 ^ w - (x + 1) := by omega
  rw [hx]
  apply Nat.eq_of_testBit_eq
  intro i
  rw [Nat.testBit_xor, Nat.testBit_two_pow_sub_succ h, Nat.testBit_two_pow_sub_one]
  by_cases hi : i < w
  · simp [hi]
  · have hxi : x.testBit i = false :=
      Nat.testBit_lt_two_pow
        (lt_of_lt_of_le h (Nat.pow_le_pow_right (by norm_num) (by omega)))
    simp [hi, hxi]

theorem or_eq_xor_two_pow {w x : ℕ} (h : x < 2 ^ w) : 2 ^ w ||| x = 2 ^ w ^^^ x := by
  apply Nat.eq_of_testBit_eq
  intro i
  rw [Nat.testBit_or, Nat.testBit_xor]
  rcases eq_or_ne w i with rfl | hw
  · rw [Nat.testBit_two_pow_self, Nat.testBit_lt_two_pow h]; rfl
  · rw [Nat.testBit_two_pow_of_ne hw]; cases x.testBit i <;> rfl

theorem add_two_pow_eq_xor {w x : ℕ} (h : x < 2 ^ w) : x + 2 ^ w = x ^^^ 2 ^ w := by
  have h1 := Nat.mul_add_lt_is_or h 1
  simp only [mul_one] at h1
  rw [Nat.xor_comm, ← or_eq_xor_two_pow h, ← h1, Nat.add_comm]

theorem testBit_31_iff {n : ℕ} (h : n < 4294967296) :
    n.testBit 31 = decide (2147483648 ≤ n) := by
  rw [Nat.testBit_to_div_mod]
  simp only [decide_eq_decide]
  omega


theorem bigXor_natCast (m k : ℕ) : bigXor (m : ℤ) (k : ℤ) = ((m ^^^ k : ℕ) : ℤ) := rfl

theorem bigXor_zero_right (a : ℤ) : bigXor a 0 = a := by
  cases a with
  | ofNat m => show Int.ofNat (m ^^^ 0) = _; rw [Nat.xor_zero]
  | negSucc m => show Int.negSucc (m ^^^ 0) = _; rw [Nat.xor_zero]

theorem bigXor_negOne (m : ℕ) : bigXor (m : ℤ) (-1) = Int.negSucc m := by
  show Int.negSucc (m ^^^ 0) = Int.negSucc m
  rw [Nat.xor_zero]

theorem zigzagSpec_even {n : ℕ} (h : n % 2 = 0) : zigzagSpec n = ((n / 2 : ℕ) : ℤ) := by
  unfold zigzagSpec
  rw [Nat.and_one_is_mod, h, Nat.shiftRight_eq_div_pow, pow_one, Nat.cast_zero, neg_zero,
    bigXor_zero_right]

theorem zigzagSpec_odd {n : ℕ} (h : n % 2 = 1) : zigzagSpec n = Int.negSucc (n / 2) := by
  unfold zigzagSpec
  rw [Nat.and_one_is_mod, h, Nat.shiftRight_eq_div_pow, pow_one, Nat.cast_one]
  exact bigXor_negOne _

theorem and_top_bit_zero {n : ℕ} (hh : n < 2147483648) : n &&& 2147483648 = 0 := by
  have h31 : n < 2 ^ 31 := by norm_num; omega
  rw [show (2147483648:ℕ) = 2 ^ 31 by norm_num, Nat.and_two_pow,
    Nat.testBit_lt_two_pow h31]
  rfl

theorem and_top_bit_one {n : ℕ} (h1 : 2147483648 ≤ n) (h2 : n < 4294967296) :
    n &&& 2147483648 = 2147483648 := by
  rw [show (2147483648:ℕ) = 2 ^ 31 by norm_num, Nat.and_two_pow]
  have ht : n.testBit 31 = true := by
    rw [Nat.testBit_to_div_mod]
    simp only [decide_eq_true_eq]
    omega
  rw [ht]
  norm_num

theorem zigzagDecode32_spec (r : ℤ) : zigzagDecode32 r = zigzagSpec (pat32 r) := by
  have hn : pat32 r < 4294967296 := pat32_lt r
  set n := pat32 r with hdef
  unfold zigzagDecode32
  have hA : jsShl r 63 = toSigned32 (n % 2 * 2147483648) := by
    unfold jsShl
    rw [show pat32 (63 : ℤ) % 32 = 31 by decide, ← hdef, Nat.shiftLeft_eq,
      show (2:ℕ) ^ 31 = 2147483648 by norm_num]
    exact toSigned32_congr (by omega)
  have hE : jsAnd r (jsShl 1 63) = toSigned32 (n &&& 2147483648) := by
    rw [show jsShl 1 63 = -2147483648 by decide]
    unfold jsAnd
    rw [show pat32 (-2147483648) = 2147483648 by decide, ← hdef]
  rw [hA, hE]
  by_cases hb : n % 2 = 0
  · rw [hb, zigzagSpec_even hb]
    rw [show jsShr (toSigned32 (0 * 2147483648)) 63 = 0 by decide]
    have hC : jsXor 0 r = toSigned32 n := by
      unfold jsXor
      rw [show pat32 0 = 0 by decide, ← hdef, Nat.zero_xor]
    rw [hC]
    by_cases hh : n < 2147483648
    · rw [and_top_bit_zero hh]
      have hD : jsShr (toSigned32 n) 1 = ((n / 2 : ℕ) : ℤ) := by
        unfold jsShr
        rw [pat32_toSigned32, Nat.mod_eq_of_lt hn, toSigned32_of_lt hh,
          show pat32 1 % 32 = 1 by decide, ofNat_shiftRight, Nat.shiftRight_eq_div_pow,
          pow_one]
      rw [hD]
      unfold jsXor
      rw [show toSigned32 0 = 0 by decide, show pat32 0 = 0 by decide,
        pat32_natCast, Nat.xor_zero, Nat.mod_eq_of_lt (by omega),
        toSigned32_of_lt (by omega)]
    · rw [and_top_bit_one (by omega) hn]
      have hD : jsShr (toSigned32 n) 1 = Int.negSucc (2147483647 - n / 2) := by
        unfold jsShr
        rw [pat32_toSigned32, Nat.mod_eq_of_lt hn, toSigned32_eq_negSucc (by omega) hn,
          show pat32 1 % 32 = 1 by decide, negSucc_shiftRight, Nat.shiftRight_eq_div_pow,
          pow_one]
        exact congrArg Int.negSucc (by omega)
      rw [hD]
      unfold jsXor
      rw [pat32_negSucc, Nat.mod_eq_of_lt (by omega),
        show pat32 (toSigned32 2147483648) = 2147483648 by decide,
        show 4294967295 - (2147483647 - n / 2) = n / 2 + 2147483648 by omega,
        show (2147483648:ℕ) = 2 ^ 31 by norm_num,
        add_two_pow_eq_xor (by norm_num; omega), Nat.xor_assoc, Nat.xor_self, Nat.xor_zero,
        toSigned32_of_lt (by omega)]
  · have hb1 : n % 2 = 1 := by omega
    rw [hb1, zigzagSpec_odd hb1]
    rw [show jsShr (toSigned32 (1 * 2147483648)) 63 = -1 by decide]
    have hC : jsXor (-1) r = toSigned32 (4294967295 - n) := by
      unfold jsXor
      rw [show pat32 (-1) = 4294967295 by decide, ← hdef, Nat.xor_comm,
        show (4294967295:ℕ) = 2 ^ 32 - 1 by norm_num,
        xor_two_pow_sub_one (by norm_num; omega)]
    rw [hC]
    by_cases hh : n < 2147483648
    · rw [and_top_bit_zero hh]
      have hD : jsShr (toSigned32 (4294967295 - n)) 1 = Int.negSucc (n / 2) := by
        unfold jsShr
        rw [pat32_toSigned32, Nat.mod_eq_of_lt (by omega),
          toSigned32_eq_negSucc (by omega) (by omega),
          show pat32 1 % 32 = 1 by decide,
          show 4294967295 - (4294967295 - n) = n by omega,
          negSucc_shiftRight, Nat.shiftRight_eq_div_pow, pow_one]
      rw [hD]
      unfold jsXor
      rw [show toSigned32 0 = 0 by decide, show pat32 0 = 0 by decide,
        pat32_negSucc, Nat.xor_zero, Nat.mod_eq_of_lt (by omega),
        toSigned32_eq_negSucc (by omega) (by omega)]
      exact congrArg Int.negSucc (by omega)
    · rw [and_top_bit_one (by omega) hn]
      have hD : jsShr (toSigned32 (4294967295 - n)) 1 = ((2147483647 - n / 2 : ℕ) : ℤ) := by
        unfold jsShr
        rw [pat32_toSigned32, Nat.mod_eq_of_lt (by omega),
          toSigned32_of_lt (by omega),
          show pat32 1 % 32 = 1 by decide, ofNat_shiftRight, Nat.shiftRight_eq_div_pow,
          pow_one]
        exact congrArg Nat.cast (by omega)
      rw [hD]
      unfold jsXor
      rw [show pat32 (toSigned32 2147483648) = 2147483648 by decide,
        pat32_natCast, Nat.mod_eq_of_lt (by omega),
        show (2147483648:ℕ) = 2 ^ 31 by norm_num,
        ← add_two_pow_eq_xor (by omega),
        show 2147483647 - n / 2 + 2 ^ 31 = 4294967295 - n / 2 by omega,
        toSigned32_eq_negSucc (by omega) (by omega)]
      exact congrArg Int.negSucc (by omega)

/-- C4: whenever the accumulation loop of `#readVarIntZigZag` terminates
normally with accumulator `r` — whose unsigned 32-bit accumulated value is
`pat32 r`, ranging over all values representable in 32 bits, including those
with bit 31 set — the read returns exactly the signed ZigZag value
`(n >> 1) XOR -(n AND 1)` of that accumulated `n` (`zigzagSpec`). -/
theorem claim_C4 (fuel : ℕ) (s : S) (r : ℤ) (s' : S)
    (h : readVarIntZigZagLoop fuel 0 0 s = .ok (r, s')) :
    readVarIntZigZag fuel s = .ok (zigzagSpec (pat32 r), s') := by
  unfold readVarIntZigZag
  rw [h]
  show Except.ok (zigzagDecode32 r, s') = _
  rw [zigzagDecode32_spec]

/-- Witness for C4 at a concrete five-byte varint whose accumulated 32-bit
value is `0xFFFFFFFF` (bit 31 set): the loop accumulates the number `-1`
(pattern `4294967295`) and the read returns its ZigZag value `-2147483648`. -/
theorem claim_C4_witness :
    readVarIntZigZagLoop 6 0 0 ⟨[255, 255, 255, 255, 15], 0, true, true⟩
      = .ok (-1, ⟨[255, 255, 255, 255, 15], 5, true, true⟩) ∧
    readVarIntZigZag 6 ⟨[255, 255, 255, 255, 15], 0, true, true⟩
      = .ok (zigzagSpec (pat32 (-1)), ⟨[255, 255, 255, 255, 15], 5, true, true⟩) ∧
    zigzagSpec (pat32 (-1)) = -2147483648 :=
  ⟨rfl, claim_C4 6 _ (-1) _ rfl, by decide⟩


theorem bigAnd_natCast (m k : ℕ) : bigAnd (m : ℤ) (k : ℤ) = ((m &&& k : ℕ) : ℤ) := rfl

theorem bigOr_natCast (m k : ℕ) : bigOr (m : ℤ) (k : ℤ) = ((m ||| k : ℕ) : ℤ) := rfl

theorem bigAnd_127 (b : ℤ) : bigAnd b 127 = b % 128 := by
  cases b with
  | ofNat m =>
    show ((m &&& 127 : ℕ) : ℤ) = _
    rw [show (127:ℕ) = 2 ^ 7 - 1 by norm_num, Nat.and_pow_two_sub_one_eq_mod]
    simp only [Int.ofNat_eq_natCast]
    omega
  | negSucc m =>
    show ((127 ^^^ (127 &&& m) : ℕ) : ℤ) = _
    rw [Nat.and_comm, show (127:ℕ) = 2 ^ 7 - 1 by norm_num, Nat.and_pow_two_sub_one_eq_mod,
      Nat.xor_comm, xor_two_pow_sub_one (Nat.mod_lt _ (by norm_num))]
    simp only [Int.negSucc_eq, Int.ofNat_eq_natCast]
    omega

theorem jsAnd_cont_false {b : ℤ} (h1 : 0 ≤ b) (h2 : b < 128) : jsAnd b 128 = 0 := by
  have hp : pat32 b < 2 ^ 7 := by unfold pat32; omega
  unfold jsAnd
  rw [show pat32 128 = 128 by decide, show (128:ℕ) = 2 ^ 7 by norm_num,
    Nat.and_two_pow, Nat.testBit_lt_two_pow hp]
  decide

theorem jsAnd_cont_true {b : ℤ} (h1 : -128 ≤ b) (h2 : b < 0) : jsAnd b 128 = 128 := by
  have hp1 : 4294967168 ≤ pat32 b := by unfold pat32; omega
  have hp2 : pat32 b < 4294967296 := pat32_lt b
  unfold jsAnd
  rw [show pat32 128 = 128 by decide, show (128:ℕ) = 2 ^ 7 by norm_num, Nat.and_two_pow]
  have ht : (pat32 b).testBit 7 = true := by
    rw [Nat.testBit_to_div_mod]
    simp only [decide_eq_true_eq]
    omega
  rw [ht]
  decide

theorem toSigned8_of_lt {u : ℕ} (h : u < 128) : toSigned8 u = (u : ℤ) := by
  unfold toSigned8; split <;> omega

theorem toSigned8_of_ge {u : ℕ} (h1 : 128 ≤ u) (h2 : u < 256) : toSigned8 u = (u : ℤ) - 256 := by
  unfold toSigned8; split <;> omega

theorem toSigned8_emod_128 (b : ℕ) : toSigned8 b % 128 = ((b % 128 : ℕ) : ℤ) := by
  unfold toSigned8; split <;> omega

theorem lor_mul_two_pow {a b s : ℕ} (h : a < 2 ^ s) : a ||| b * 2 ^ s = a + b * 2 ^ s := by
  have h1 := Nat.mul_add_lt_is_or h b
  rw [Nat.lor_comm, show b * 2 ^ s = 2 ^ s * b from mul_comm _ _, ← h1]
  omega

theorem varintEncode_length_le : ∀ (k u : ℕ), u < 2 ^ (7 * (k + 1)) →
    (varintEncode u).length ≤ k + 1 := by
  intro k
  induction k with
  | zero =>
    intro u h
    unfold varintEncode
    rw [if_pos (by norm_num at h; omega)]
    simp
  | succ k ih =>
    intro u h
    unfold varintEncode
    by_cases h128 : u < 128
    · rw [if_pos h128]; simp
    · rw [if_neg h128]
      have hd : u / 128 < 2 ^ (7 * (k + 1)) := by
        rw [Nat.div_lt_iff_lt_mul (by norm_num)]
        calc u < 2 ^ (7 * (k + 2)) := h
          _ = 2 ^ (7 * (k + 1)) * 128 := by
              rw [show 7 * (k + 2) = 7 * (k + 1) + 7 by ring, pow_add]
              norm_num
      have := ih (u / 128) hd
      simpa using this

theorem allocate_ok {s : S} {k : ℤ} (h : s.off + k ≤ (s.data.length : ℤ)) :
    allocate s k = .ok () := by
  unfold allocate
  rw [if_neg (by omega)]

theorem viewGetUint_one (d : List ℕ) (o : ℤ) (le : Bool) :
    viewGetUint d o 1 le = byteAt d o := by
  cases le <;> simp [viewGetUint, bytesLE, bytesBE]

theorem byteAt_append (pre rest : List ℕ) (b : ℕ) :
    byteAt (pre ++ b :: rest) ((pre.length : ℕ) : ℤ) = b % 256 := by
  unfold byteAt
  rw [Int.toNat_natCast, List.getD_append_right pre (b :: rest) 0 pre.length (le_refl _)]
  simp

theorem toSigned8_mod (b : ℕ) : toSigned8 (b % 256) = toSigned8 b := by
  unfold toSigned8
  rw [Nat.mod_mod_of_dvd b dvd_rfl]

theorem readByte_at (pre rest : List ℕ) (b : ℕ) (le vi : Bool) :
    readByte ⟨pre ++ b :: rest, (pre.length : ℤ), le, vi⟩
      = .ok (toSigned8 b, ⟨pre ++ b :: rest, (pre.length : ℤ) + 1, le, vi⟩) := by
  unfold readByte readFixed
  rw [allocate_ok (by simp)]
  unfold viewCheck
  rw [if_pos ⟨by simp, by simp⟩]
  simp only [Except.bind, bind, viewGetUint_one, byteAt_append, toSigned8_mod]
  rfl

theorem varlong_loop_encode (u : ℕ) :
    ∀ (fuel acc shift : ℕ) (pre rest : List ℕ) (le vi : Bool),
      u < 2 ^ (70 - shift) → shift ≤ 63 → shift % 7 = 0 → acc < 2 ^ shift →
      (varintEncode u).length ≤ fuel →
      readVarLongZigZagLoop fuel (acc : ℤ) (shift : ℤ)
          ⟨pre ++ (varintEncode u ++ rest), (pre.length : ℤ), le, vi⟩
        = .ok (((acc + u * 2 ^ shift : ℕ) : ℤ),
            ⟨pre ++ (varintEncode u ++ rest),
              (pre.length : ℤ) + ((varintEncode u).length : ℤ), le, vi⟩) := by
  induction u using Nat.strong_induction_on with
  | _ u ih =>
    intro fuel acc shift pre rest le vi hu hs hs7 hacc hf
    by_cases h128 : u < 128
    · have henc : varintEncode u = [u] := by
        conv_lhs => rw [varintEncode]
        rw [if_pos h128]
      rw [henc] at hf ⊢
      obtain ⟨f, rfl⟩ : ∃ f, fuel = f + 1 := ⟨fuel - 1, by simp at hf; omega⟩
      unfold readVarLongZigZagLoop
      rw [List.singleton_append]
      rw [allocate_ok (by simp), readByte_at pre rest u le vi]
      simp only [Except.bind, bind]
      rw [toSigned8_of_lt h128]
      rw [if_pos (jsAnd_cont_false (by positivity) (by exact_mod_cast h128))]
      have hand : bigAnd (u : ℤ) 127 = (u : ℤ) := by
        rw [bigAnd_127]; omega
      have hshl : bigShl (u : ℤ) (shift : ℤ) = ((u * 2 ^ shift : ℕ) : ℤ) := by
        unfold bigShl; rw [Int.toNat_natCast]; push_cast; ring
      rw [hand, hshl, bigOr_natCast, lor_mul_two_pow hacc]
      simp
    · have henc : varintEncode u = (u % 128 + 128) :: varintEncode (u / 128) := by
        conv_lhs => rw [varintEncode]
        rw [if_neg h128]
      have hs56 : shift ≤ 56 := by
        by_contra hgt
        have h63 : shift = 63 := by omega
        rw [h63] at hu
        norm_num at hu
        omega
      rw [henc] at hf ⊢
      obtain ⟨f, rfl⟩ : ∃ f, fuel = f + 1 := ⟨fuel - 1, by simp at hf; omega⟩
      unfold readVarLongZigZagLoop
      rw [List.cons_append]
      rw [allocate_ok (by first | (simp; omega) | simp),
        readByte_at pre (varintEncode (u / 128) ++ rest) _ le vi]
      simp only [Except.bind, bind]
      rw [toSigned8_of_ge (by omega) (by omega)]
      rw [if_neg (by
        rw [jsAnd_cont_true (by push_cast; omega) (by push_cast; omega)]
        norm_num)]
      rw [if_neg (by push_cast; omega)]
      have hand : bigAnd (((u % 128 + 128 : ℕ) : ℤ) - 256) 127 = ((u % 128 : ℕ) : ℤ) := by
        rw [bigAnd_127]; push_cast; omega
      have hshl : bigShl ((u % 128 : ℕ) : ℤ) (shift : ℤ)
          = ((u % 128 * 2 ^ shift : ℕ) : ℤ) := by
        unfold bigShl; rw [Int.toNat_natCast]; push_cast; ring
      rw [hand, hshl, bigOr_natCast, lor_mul_two_pow hacc]
      rw [show ((shift : ℤ) + 7) = ((shift + 7 : ℕ) : ℤ) by push_cast; ring]
      have hdata2 : pre ++ (u % 128 + 128) :: (varintEncode (u / 128) ++ rest)
          = (pre ++ [u % 128 + 128]) ++ (varintEncode (u / 128) ++ rest) := by simp
      have hoff2 : ((pre.length : ℤ) + 1) = (((pre ++ [u % 128 + 128]).length : ℕ) : ℤ) := by
        simp
      rw [hdata2, hoff2]
      have hu2 : u / 128 < 2 ^ (70 - (shift + 7)) := by
        rw [Nat.div_lt_iff_lt_mul (by norm_num)]
        calc u < 2 ^ (70 - shift) := hu
          _ = 2 ^ (70 - (shift + 7)) * 128 := by
            rw [show (128:ℕ) = 2 ^ 7 by norm_num, ← pow_add,
              show 70 - (shift + 7) + 7 = 70 - shift by omega]
      have hacc2 : acc + u % 128 * 2 ^ shift < 2 ^ (shift + 7) := by
        have hpow : (2:ℕ) ^ (shift + 7) = 2 ^ shift * 128 := by
          rw [pow_add]; norm_num
        have hm : u % 128 < 128 := Nat.mod_lt _ (by norm_num)
        calc acc + u % 128 * 2 ^ shift
            < 2 ^ shift + u % 128 * 2 ^ shift := by omega
          _ = (u % 128 + 1) * 2 ^ shift := by ring
          _ ≤ 128 * 2 ^ shift := Nat.mul_le_mul_right _ (by omega)
          _ = 2 ^ (shift + 7) := by rw [hpow]; ring
      have hf2 : (varintEncode (u / 128)).length ≤ f := by
        simp at hf; omega
      rw [ih (u / 128) (by omega) f (acc + u % 128 * 2 ^ shift) (shift + 7)
        (pre ++ [u % 128 + 128]) rest le vi hu2 (by omega) (by omega) hacc2 hf2]
      have hval : acc + u % 128 * 2 ^ shift + u / 128 * 2 ^ (shift + 7)
          = acc + u * 2 ^ shift := by
        have hsplit : u % 128 + 128 * (u / 128) = u := Nat.mod_add_div u 128
        have hx : u * 2 ^ shift
            = u % 128 * 2 ^ shift + u / 128 * (2 ^ shift * 128) := by
          conv_lhs => rw [← hsplit]
          ring
        rw [pow_add, show (2:ℕ)^7 = 128 by norm_num, hx]
        ring
      rw [hval]
      simp
      push_cast
      omega

theorem zigzagEncode_nonneg {n : ℤ} (h0 : 0 ≤ n) (h2 : n < 9223372036854775808) :
    zigzagEncode n = 2 * n.toNat := by
  lift n to ℕ using h0 with m
  unfold zigzagEncode
  have hshl : bigShl (m : ℤ) 1 = ((2 * m : ℕ) : ℤ) := by
    unfold bigShl
    norm_num
    ring
  have hshr : (m : ℤ) >>> (63 : ℕ) = 0 := by
    rw [ofNat_shiftRight, Nat.shiftRight_eq_div_pow, Nat.div_eq_of_lt (by push_cast at h2; norm_num; omega)]
    norm_num
  rw [hshl, hshr, bigXor_zero_right, Int.toNat_natCast, Int.toNat_natCast]

theorem zigzagEncode_neg {n : ℤ} (h0 : n < 0) (h1 : -9223372036854775808 ≤ n) :
    ((zigzagEncode n : ℕ) : ℤ) = -2 * n - 1 := by
  obtain ⟨m, rfl⟩ : ∃ m : ℕ, n = Int.negSucc m := by
    refine ⟨(-n - 1).toNat, ?_⟩
    rw [Int.negSucc_eq]
    omega
  have hm : m < 9223372036854775808 := by
    simp only [Int.negSucc_eq] at h1
    omega
  unfold zigzagEncode
  have hshl : bigShl (Int.negSucc m) 1 = Int.negSucc (2 * m + 1) := by
    unfold bigShl
    simp only [Int.negSucc_eq]
    push_cast
    ring_nf
  have hshr : Int.negSucc m >>> (63 : ℕ) = Int.negSucc 0 := by
    rw [negSucc_shiftRight, Nat.shiftRight_eq_div_pow, Nat.div_eq_of_lt (by norm_num; omega)]
  rw [hshl, hshr]
  have hx : bigXor (Int.negSucc (2 * m + 1)) (Int.negSucc 0) = ((2 * m + 1 : ℕ) : ℤ) := by
    show (((2 * m + 1) ^^^ 0 : ℕ) : ℤ) = _
    rw [Nat.xor_zero]
  rw [hx, Int.toNat_natCast]
  simp only [Int.negSucc_eq]
  push_cast
  ring

theorem zigzag64_roundtrip {n : ℤ} (h1 : -9223372036854775808 ≤ n)
    (h2 : n < 9223372036854775808) :
    zigzagDecode64 ((zigzagEncode n : ℕ) : ℤ) = n := by
  by_cases h0 : 0 ≤ n
  · rw [zigzagEncode_nonneg h0 h2]
    unfold zigzagDecode64
    have hshr : bigShr ((2 * n.toNat : ℕ) : ℤ) 1 = (n.toNat : ℤ) := by
      unfold bigShr
      rw [show (1:ℤ).toNat = 1 from rfl, ofNat_shiftRight, Nat.shiftRight_eq_div_pow]
      norm_num
    have hand : bigAnd ((2 * n.toNat : ℕ) : ℤ) 1 = 0 := by
      show ((2 * n.toNat &&& 1 : ℕ) : ℤ) = 0
      rw [Nat.and_one_is_mod]
      omega
    rw [hshr, hand, neg_zero, bigXor_zero_right]
    omega
  · push_neg at h0
    have he := zigzagEncode_neg h0 h1
    set u := zigzagEncode n with hu
    unfold zigzagDecode64
    have hodd : u % 2 = 1 := by omega
    have hshr : bigShr (u : ℤ) 1 = ((u / 2 : ℕ) : ℤ) := by
      unfold bigShr
      rw [show (1:ℤ).toNat = 1 from rfl, ofNat_shiftRight, Nat.shiftRight_eq_div_pow]
    have hand : bigAnd (u : ℤ) 1 = 1 := by
      show ((u &&& 1 : ℕ) : ℤ) = 1
      rw [Nat.and_one_is_mod, hodd]
      norm_num
    rw [hshr, hand, bigXor_negOne]
    simp only [Int.negSucc_eq]
    omega

/-- C9: for every signed 64-bit integer `n`, ZigZag-encoding `n`
(`(n << 1) XOR (n >> 63)`), emitting the standard varint bytes of that unsigned
value, and reading them back with `#readVarLongZigZag` yields `n` again (in any
dialect and with anything following the varint in the buffer). -/
theorem claim_C9 (n : ℤ) (h1 : -9223372036854775808 ≤ n) (h2 : n < 9223372036854775808)
    (fuel : ℕ) (hf : 10 ≤ fuel) (rest : List ℕ) (le vi : Bool) :
    readVarLongZigZag fuel ⟨varintEncode (zigzagEncode n) ++ rest, 0, le, vi⟩
      = .ok (n, ⟨varintEncode (zigzagEncode n) ++ rest,
          ((varintEncode (zigzagEncode n)).length : ℤ), le, vi⟩) := by
  have hu64 : zigzagEncode n < 18446744073709551616 := by
    by_cases h0 : 0 ≤ n
    · rw [zigzagEncode_nonneg h0 h2]
      omega
    · push_neg at h0
      have := zigzagEncode_neg h0 h1
      omega
  have hlen : (varintEncode (zigzagEncode n)).length ≤ 10 :=
    varintEncode_length_le 9 _ (by norm_num; omega)
  have hloop := varlong_loop_encode (zigzagEncode n) fuel 0 0 [] rest le vi
    (by norm_num; omega) (by norm_num) (by norm_num) (by norm_num) (by omega)
  simp only [List.nil_append, List.length_nil, Nat.cast_zero, Nat.zero_add, Nat.pow_zero,
    mul_one, zero_add] at hloop
  unfold readVarLongZigZag
  rw [hloop]
  simp only [Except.bind, bind]
  rw [zigzag64_roundtrip h1 h2]

/-- Witness for C9 at `n = -3`: the encoding is the single byte `0x05` and the
read returns `-3`. -/
theorem claim_C9_witness :
    varintEncode (zigzagEncode (-3)) = [5] ∧
    readVarLongZigZag 10 ⟨varintEncode (zigzagEncode (-3)) ++ [], 0, true, true⟩
      = .ok (-3, ⟨varintEncode (zigzagEncode (-3)) ++ [],
          ((varintEncode (zigzagEncode (-3))).length : ℤ), true, true⟩) := by
  constructor
  · rw [show zigzagEncode (-3) = 5 by decide, varintEncode]
    norm_num
  · exact claim_C9 (-3) (by norm_num) (by norm_num) 10 (by norm_num) [] true true


theorem readByte_error {s : S} {e : Err} (h : readByte s = .error e) :
    e = Err.unexpectedBufferEnd ∨ e = Err.rangeError := by
  unfold readByte readFixed allocate viewCheck at h
  by_cases h1 : s.off + ((1:ℕ):ℤ) > (s.data.length : ℤ)
  · rw [if_pos h1] at h
    simp [Except.bind, bind] at h
    exact Or.inl h.symm
  · rw [if_neg h1] at h
    by_cases h2 : 0 ≤ s.off ∧ s.off + ((1:ℕ):ℤ) ≤ (s.data.length : ℤ)
    · rw [if_pos h2] at h
      simp [Except.bind, bind] at h
    · rw [if_neg h2] at h
      simp [Except.bind, bind] at h
      exact Or.inr h.symm

theorem readVarIntLoop_ne_vntl : ∀ (fuel : ℕ) (value shift : ℤ) (s : S),
    readVarIntLoop fuel value shift s ≠ .error .varNumTooLarge := by
  intro fuel
  induction fuel with
  | zero =>
    intro value shift s
    simp [readVarIntLoop]
  | succ f ih =>
    intro value shift s
    unfold readVarIntLoop
    cases h : readByte s with
    | error e =>
      simp only [Except.bind, bind, h]
      rcases readByte_error h with rfl | rfl <;> simp
    | ok x =>
      obtain ⟨b, s'⟩ := x
      simp only [Except.bind, bind, h]
      split
      · simp
      · exact ih _ _ _

/-- C5 fails as stated:  on ten continuation bytes followed by a terminator,
the 32-bit ZigZag read throws varnum-too-large, but `#readVarInt` — which the
claim also covers — succeeds, returning a value instead of failing. -/
theorem claim_C5_counterexample :
    readVarInt 12 ⟨[128, 128, 128, 128, 128, 128, 128, 128, 128, 128, 1], 0, true, true⟩
      = .ok (64, ⟨[128, 128, 128, 128, 128, 128, 128, 128, 128, 128, 1], 11, true, true⟩) ∧
    readVarInt 12 ⟨[128, 128, 128, 128, 128, 128, 128, 128, 128, 128, 1], 0, true, true⟩
      ≠ .error .varNumTooLarge ∧
    readVarIntZigZag 12 ⟨[128, 128, 128, 128, 128, 128, 128, 128, 128, 128, 1], 0, true, true⟩
      = .error .varNumTooLarge :=
  ⟨rfl, by simp [show readVarInt 12 ⟨[128, 128, 128, 128, 128, 128, 128, 128, 128, 128, 1], 0, true, true⟩
      = .ok (64, ⟨[128, 128, 128, 128, 128, 128, 128, 128, 128, 128, 1], 11, true, true⟩) from rfl], rfl⟩

theorem toSigned8_high {b : ℕ} (h : 128 ≤ b % 256) :
    -128 ≤ toSigned8 b ∧ toSigned8 b < 0 := by
  unfold toSigned8
  split <;> omega

theorem readVarIntZigZagLoop_cont (m : ℕ) :
    ∀ (fuel sh : ℕ) (result shiftZ : ℤ) (pre cont rest : List ℕ) (le vi : Bool),
      shiftZ = (sh : ℤ) →
      cont.length = m → 1 ≤ m → (∀ b ∈ cont, 128 ≤ b % 256) →
      sh + 7 * m = 70 → m ≤ fuel →
      readVarIntZigZagLoop fuel result shiftZ
          ⟨pre ++ (cont ++ rest), (pre.length : ℤ), le, vi⟩
        = .error .varNumTooLarge := by
  induction m with
  | zero => omega
  | succ m ih =>
    intro fuel sh result shiftZ pre cont rest le vi hz hlen hm hhigh hsh hf
    subst hz
    obtain ⟨b, cont', rfl⟩ : ∃ b cont', cont = b :: cont' := by
      cases cont with
      | nil => simp at hlen
      | cons b t => exact ⟨b, t, rfl⟩
    obtain ⟨f, rfl⟩ : ∃ f, fuel = f + 1 := ⟨fuel - 1, by omega⟩
    have hb : 128 ≤ b % 256 := hhigh b (by simp)
    unfold readVarIntZigZagLoop
    rw [List.cons_append]
    rw [allocate_ok (by first | (simp; omega) | simp), readByte_at pre (cont' ++ rest) b le vi]
    simp only [Except.bind, bind]
    rw [if_neg (by
      rw [jsAnd_cont_true (toSigned8_high hb).1 (toSigned8_high hb).2]
      norm_num)]
    by_cases hend : m = 0
    · subst hend
      rw [if_pos (by push_cast; omega)]
    · rw [if_neg (by push_cast; omega)]
      rw [show ((sh : ℤ) + 7) = ((sh + 7 : ℕ) : ℤ) by push_cast; ring]
      have hdata : pre ++ b :: (cont' ++ rest) = (pre ++ [b]) ++ (cont' ++ rest) := by simp
      have hoff : ((pre.length : ℤ) + 1) = (((pre ++ [b]).length : ℕ) : ℤ) := by simp
      rw [hdata, hoff]
      exact ih f (sh + 7) _ _ (pre ++ [b]) cont' rest le vi rfl (by simpa using hlen)
        (by omega) (fun x hx => hhigh x (by simp [hx])) (by omega) (by omega)

theorem readVarLongZigZagLoop_cont (m : ℕ) :
    ∀ (fuel sh : ℕ) (result shiftZ : ℤ) (pre cont rest : List ℕ) (le vi : Bool),
      shiftZ = (sh : ℤ) →
      cont.length = m → 1 ≤ m → (∀ b ∈ cont, 128 ≤ b % 256) →
      sh + 7 * m = 70 → m ≤ fuel →
      readVarLongZigZagLoop fuel result shiftZ
          ⟨pre ++ (cont ++ rest), (pre.length : ℤ), le, vi⟩
        = .error .varNumTooLarge := by
  induction m with
  | zero => omega
  | succ m ih =>
    intro fuel sh result shiftZ pre cont rest le vi hz hlen hm hhigh hsh hf
    subst hz
    obtain ⟨b, cont', rfl⟩ : ∃ b cont', cont = b :: cont' := by
      cases cont with
      | nil => simp at hlen
      | cons b t => exact ⟨b, t, rfl⟩
    obtain ⟨f, rfl⟩ : ∃ f, fuel = f + 1 := ⟨fuel - 1, by omega⟩
    have hb : 128 ≤ b % 256 := hhigh b (by simp)
    unfold readVarLongZigZagLoop
    rw [List.cons_append]
    rw [allocate_ok (by first | (simp; omega) | simp), readByte_at pre (cont' ++ rest) b le vi]
    simp only [Except.bind, bind]
    rw [if_neg (by
      rw [jsAnd_cont_true (toSigned8_high hb).1 (toSigned8_high hb).2]
      norm_num)]
    by_cases hend : m = 0
    · subst hend
      rw [if_pos (by push_cast; omega)]
    · rw [if_neg (by push_cast; omega)]
      rw [show ((sh : ℤ) + 7) = ((sh + 7 : ℕ) : ℤ) by push_cast; ring]
      have hdata : pre ++ b :: (cont' ++ rest) = (pre ++ [b]) ++ (cont' ++ rest) := by simp
      have hoff : ((pre.length : ℤ) + 1) = (((pre ++ [b]).length : ℕ) : ℤ) := by simp
      rw [hdata, hoff]
      exact ih f (sh + 7) _ _ (pre ++ [b]) cont' rest le vi rfl (by simpa using hlen)
        (by omega) (fun x hx => hhigh x (by simp [hx])) (by omega) (by omega)

/-- C5 amended: only the two ZigZag varint reads guard their shift — each
fails with the varnum-too-large error once the accumulated shift exceeds 63
bits without a terminating byte (ten continuation bytes suffice); the unsigned
varint `#readVarInt` has no such check and never raises that error, consuming
bytes until one has the continuation bit clear or the buffer ends. -/
theorem claim_C5_amended :
    (∀ (fuel : ℕ) (s : S), readVarInt fuel s ≠ .error .varNumTooLarge) ∧
    (∀ (fuel : ℕ) (pre cont rest : List ℕ) (le vi : Bool),
      cont.length = 10 → (∀ b ∈ cont, 128 ≤ b % 256) → 10 ≤ fuel →
      readVarIntZigZag fuel ⟨pre ++ (cont ++ rest), (pre.length : ℤ), le, vi⟩
        = .error .varNumTooLarge) ∧
    (∀ (fuel : ℕ) (pre cont rest : List ℕ) (le vi : Bool),
      cont.length = 10 → (∀ b ∈ cont, 128 ≤ b % 256) → 10 ≤ fuel →
      readVarLongZigZag fuel ⟨pre ++ (cont ++ rest), (pre.length : ℤ), le, vi⟩
        = .error .varNumTooLarge) := by
  refine ⟨fun fuel s => readVarIntLoop_ne_vntl fuel 0 0 s, ?_, ?_⟩
  · intro fuel pre cont rest le vi hlen hhigh hf
    unfold readVarIntZigZag
    rw [readVarIntZigZagLoop_cont 10 fuel 0 0 0 pre cont rest le vi (by norm_num) hlen
      (by omega) hhigh (by omega) hf]
    rfl
  · intro fuel pre cont rest le vi hlen hhigh hf
    unfold readVarLongZigZag
    rw [readVarLongZigZagLoop_cont 10 fuel 0 0 0 pre cont rest le vi (by norm_num) hlen
      (by omega) hhigh (by omega) hf]
    rfl

/-- Witness for the amended C5 on ten `0x80` bytes followed by `0x01`. -/
theorem claim_C5_amended_witness :
    readVarIntZigZag 12 ⟨[128, 128, 128, 128, 128, 128, 128, 128, 128, 128, 1], 0, true, true⟩
      = .error .varNumTooLarge ∧
    readVarLongZigZag 12 ⟨[128, 128, 128, 128, 128, 128, 128, 128, 128, 128, 1], 0, true, true⟩
      = .error .varNumTooLarge ∧
    readVarInt 12 ⟨[128, 128, 128, 128, 128, 128, 128, 128, 128, 128, 1], 0, true, true⟩
      ≠ .error .varNumTooLarge := by
  refine ⟨?_, ?_, claim_C5_amended.1 12 _⟩
  · have h := claim_C5_amended.2.1 12 []
      [128, 128, 128, 128, 128, 128, 128, 128, 128, 128] [1] true true (by decide)
      (by decide) (by norm_num)
    simpa using h
  · have h := claim_C5_amended.2.2 12 []
      [128, 128, 128, 128, 128, 128, 128, 128, 128, 128] [1] true true (by decide)
      (by decide) (by norm_num)
    simpa using h


theorem readListTyped_length : ∀ (fuel : ℕ) (k : NumKind) (t : TAG) (n : ℕ) (acc : List ℤ)
    (s : S) (v : JSVal) (s' : S),
    readListTyped fuel k t n acc s = .ok (v, s') →
    ∃ vs : List ℤ, v = .typed k (acc ++ vs) ∧ vs.length = n := by
  intro fuel
  induction fuel with
  | zero =>
    intro k t n acc s v s' h
    simp [readListTyped] at h
  | succ f ih =>
    intro k t n acc s v s' h
    match n with
    | 0 =>
      refine ⟨[], ?_, rfl⟩
      unfold readListTyped at h
      simp at h
      simp [← h.1]
    | n + 1 =>
      unfold readListTyped at h
      cases he : readTag f t s with
      | error e => rw [he] at h; simp [Except.bind, bind] at h
      | ok x =>
        obtain ⟨entry, s₁⟩ := x
        rw [he] at h
        simp only [Except.bind, bind] at h
        obtain ⟨vs, hv, hlen⟩ := ih k t n (acc ++ [typedStore k entry]) s₁ v s' h
        refine ⟨typedStore k entry :: vs, ?_, by simp [hlen]⟩
        rw [hv]
        simp

theorem readListArr_shape : ∀ (fuel : ℕ) (t : TAG) (n : ℕ) (acc : List JSVal)
    (s : S) (v : JSVal) (s' : S),
    readListArr fuel t n acc s = .ok (v, s') →
    ∃ vs : List JSVal, v = .arr vs := by
  intro fuel
  induction fuel with
  | zero =>
    intro t n acc s v s' h
    simp [readListArr] at h
  | succ f ih =>
    intro t n acc s v s' h
    match n with
    | 0 =>
      unfold readListArr at h
      simp at h
      exact ⟨acc, h.1.symm⟩
    | n + 1 =>
      unfold readListArr at h
      cases he : readTag f t s with
      | error e => rw [he] at h; simp [Except.bind, bind] at h
      | ok x =>
        obtain ⟨entry, s₁⟩ := x
        rw [he] at h
        simp only [Except.bind, bind] at h
        exact ih t n (acc ++ [entry]) s₁ v s' h

/-- C1: whenever `#readList` succeeds, it has read an element kind and a
length prefix, and: for the six numeric element kinds the result is a packed
buffer of exactly the matching `getAppropriateTypedArray` element kind whose
element count equals the on-wire length prefix (which is then nonnegative);
for every other element kind the result is an ordered sequence of child
tags. -/
theorem claim_C1 (fuel : ℕ) (s : S) (v : JSVal) (s' : S)
    (h : readList fuel s = .ok (v, s')) :
    ∃ (f : ℕ) (t : TAG) (s₁ : S) (length : ℤ) (s₂ : S),
      fuel = f + 1 ∧
      readTagType s = .ok (t, s₁) ∧
      readArrayLength f s₁ = .ok (length, s₂) ∧
      match getAppropriateTypedArray t with
      | some k => 0 ≤ length ∧ ∃ vs : List ℤ, v = .typed k vs ∧ (vs.length : ℤ) = length
      | none => ∃ vs : List JSVal, v = .arr vs := by
  match fuel with
  | 0 => simp [readList] at h
  | f + 1 =>
    unfold readList at h
    cases h1 : readTagType s with
    | error e => rw [h1] at h; simp [Except.bind, bind] at h
    | ok x1 =>
      obtain ⟨t, s₁⟩ := x1
      rw [h1] at h
      simp only [Except.bind, bind] at h
      cases h2 : readArrayLength f s₁ with
      | error e => rw [h2] at h; simp [Except.bind, bind] at h
      | ok x2 =>
        obtain ⟨length, s₂⟩ := x2
        rw [h2] at h
        simp only [Except.bind, bind] at h
        cases hk : getAppropriateTypedArray t with
        | some k =>
          simp only [hk] at h
          refine ⟨f, t, s₁, length, s₂, rfl, rfl, h2, ?_⟩
          simp only [hk]
          by_cases hneg : length < 0
          · rw [if_pos hneg] at h
            simp at h
          · rw [if_neg hneg] at h
            obtain ⟨vs, hv, hlen⟩ := readListTyped_length f k t length.toNat [] s₂ v s' h
            exact ⟨by omega, vs, by simpa using hv, by omega⟩
        | none =>
          simp only [hk] at h
          refine ⟨f, t, s₁, length, s₂, rfl, rfl, h2, ?_⟩
          simp only [hk]
          exact readListArr_shape f t length.toNat [] s₂ v s' h

/-- Witness for C1: a big-endian LIST of element kind BYTE and length 2 with
payload bytes `5, 250` decodes to the packed `Int8Array` `[5, -6]` of length
2, and the claim instance holds there; and a LIST of element kind STRING
decodes to an ordered sequence. -/
theorem claim_C1_witness :
    readList 4 ⟨[1, 0, 0, 0, 2, 5, 250], 0, false, false⟩
      = .ok (.typed .i8 [5, -6], ⟨[1, 0, 0, 0, 2, 5, 250], 7, false, false⟩) ∧
    (∃ (f : ℕ) (t : TAG) (s₁ : S) (length : ℤ) (s₂ : S),
      4 = f + 1 ∧
      readTagType ⟨[1, 0, 0, 0, 2, 5, 250], 0, false, false⟩ = .ok (t, s₁) ∧
      readArrayLength f s₁ = .ok (length, s₂) ∧
      match getAppropriateTypedArray t with
      | some k => 0 ≤ length ∧ ∃ vs : List ℤ,
          JSVal.typed NumKind.i8 [5, -6] = .typed k vs ∧ (vs.length : ℤ) = length
      | none => ∃ vs : List JSVal, JSVal.typed NumKind.i8 [5, -6] = .arr vs) :=
  ⟨rfl, claim_C1 4 ⟨[1, 0, 0, 0, 2, 5, 250], 0, false, false⟩
    (.typed .i8 [5, -6]) ⟨[1, 0, 0, 0, 2, 5, 250], 7, false, false⟩ rfl⟩


/-- C3 fails as stated: a big-endian LIST with element kind END and length 1
fails with the unexpected-end-tag error, which is not the invalid-tag error
the claim names. -/
theorem claim_C3_counterexample :
    readList 5 ⟨[0, 0, 0, 0, 1], 0, false, false⟩ = .error .unexpectedEndTag ∧
    Err.unexpectedEndTag ≠ Err.invalidTag :=
  ⟨rfl, by decide⟩

/-- C3 amended: a LIST with element kind END and length 0 decodes to the empty
sequence; with length 1 or more the decode fails, but with the
unexpected-end-tag error (the `UnexpectedEndTagError` thrown by `#readTag` on
an END kind), not the invalid-tag error. -/
theorem claim_C3_amended (f : ℕ) (s s₁ s₂ : S) (length : ℤ)
    (h1 : readTagType s = .ok (.END, s₁))
    (h2 : readArrayLength f s₁ = .ok (length, s₂)) :
    (length = 0 → 1 ≤ f → readList (f + 1) s = .ok (.arr [], s₂)) ∧
    (1 ≤ length → 2 ≤ f → readList (f + 1) s = .error .unexpectedEndTag) := by
  have hbase : readList (f + 1) s = readListArr f .END length.toNat [] s₂ := by
    unfold readList
    rw [h1]
    simp only [Except.bind, bind]
    rw [h2]
    rfl
  constructor
  · intro hlen hf
    obtain ⟨g, rfl⟩ : ∃ g, f = g + 1 := ⟨f - 1, by omega⟩
    rw [hbase, hlen]
    rfl
  · intro hlen hf
    obtain ⟨g, rfl⟩ : ∃ g, f = g + 2 := ⟨f - 2, by omega⟩
    rw [hbase]
    obtain ⟨m, hm⟩ : ∃ m, length.toNat = m + 1 := ⟨length.toNat - 1, by omega⟩
    rw [hm]
    rfl

/-- Witness for the amended C3 at concrete five-byte inputs. -/
theorem claim_C3_amended_witness :
    readList 3 ⟨[0, 0, 0, 0, 0], 0, false, false⟩
      = .ok (.arr [], ⟨[0, 0, 0, 0, 0], 5, false, false⟩) ∧
    readList 3 ⟨[0, 0, 0, 0, 1], 0, false, false⟩ = .error .unexpectedEndTag := by
  constructor
  · exact (claim_C3_amended 2 ⟨[0, 0, 0, 0, 0], 0, false, false⟩
      ⟨[0, 0, 0, 0, 0], 1, false, false⟩ ⟨[0, 0, 0, 0, 0], 5, false, false⟩ 0
      rfl rfl).1 rfl (by norm_num)
  · exact (claim_C3_amended 2 ⟨[0, 0, 0, 0, 1], 0, false, false⟩
      ⟨[0, 0, 0, 0, 1], 1, false, false⟩ ⟨[0, 0, 0, 0, 1], 5, false, false⟩ 1
      rfl rfl).2 (by norm_num) (by norm_num)

theorem jsSubarray_of_le {d : List ℕ} {b e : ℤ} (hb0 : 0 ≤ b) (he0 : 0 ≤ e)
    (heb : e ≤ b) : jsSubarray d b e = [] := by
  simp only [jsSubarray]
  rw [if_neg (by omega : ¬ b < 0), if_neg (by omega : ¬ e < 0),
    show (min e (d.length : ℤ)).toNat - (min b (d.length : ℤ)).toNat = 0 by omega]
  simp

/-- C6 fails as stated: a big-endian INT_ARRAY with length prefix `-1` fails
with a host range error (from `new Int32Array(-1)`), not the invalid-tag
error, and a BYTE_ARRAY with length prefix `-1` does not fail at all — it
yields an empty buffer and moves the cursor backwards. -/
theorem claim_C6_counterexample :
    readIntArray 3 ⟨[255, 255, 255, 255], 0, false, false⟩ = .error .rangeError ∧
    Err.rangeError ≠ Err.invalidTag ∧
    readByteArray 3 ⟨[255, 255, 255, 255, 9, 9], 0, false, false⟩
      = .ok (.typed .i8 [], ⟨[255, 255, 255, 255, 9, 9], 3, false, false⟩) :=
  ⟨rfl, by decide, rfl⟩

/-- C6 amended: negative array lengths are not rejected with the invalid-tag
error.  INT_ARRAY and LONG_ARRAY fail with a generic host range error from
typed-array construction; BYTE_ARRAY succeeds, yielding an empty buffer (when
the cursor stays nonnegative) and moving the cursor backwards by the negative
length. -/
theorem claim_C6_amended (fuel : ℕ) (s s₁ : S) (length : ℤ)
    (h : readArrayLength fuel s = .ok (length, s₁)) (hneg : length < 0) :
    readIntArray fuel s = .error .rangeError ∧
    readLongArray fuel s = .error .rangeError ∧
    (0 ≤ s₁.off + length → s₁.off ≤ (s₁.data.length : ℤ) →
      readByteArray fuel s = .ok (.typed .i8 [], { s₁ with off := s₁.off + length })) := by
  refine ⟨?_, ?_, ?_⟩
  · unfold readIntArray
    rw [h]
    simp only [Except.bind, bind]
    rw [if_pos hneg]
  · unfold readLongArray
    rw [h]
    simp only [Except.bind, bind]
    rw [if_pos hneg]
  · intro hge hle
    unfold readByteArray
    rw [h]
    simp only [Except.bind, bind]
    rw [allocate_ok (by omega)]
    simp only [Except.bind, bind]
    rw [jsSubarray_of_le (by omega) (by omega) (by omega)]
    rfl

/-- Witness for the amended C6 on length prefix `-1`. -/
theorem claim_C6_amended_witness :
    readIntArray 3 ⟨[255, 255, 255, 255, 9, 9], 0, false, false⟩ = .error .rangeError ∧
    readLongArray 3 ⟨[255, 255, 255, 255, 9, 9], 0, false, false⟩ = .error .rangeError ∧
    readByteArray 3 ⟨[255, 255, 255, 255, 9, 9], 0, false, false⟩
      = .ok (.typed .i8 [], ⟨[255, 255, 255, 255, 9, 9], 3, false, false⟩) := by
  have h := claim_C6_amended 3 ⟨[255, 255, 255, 255, 9, 9], 0, false, false⟩
    ⟨[255, 255, 255, 255, 9, 9], 4, false, false⟩ (-1) (by rfl) (by norm_num)
  refine ⟨h.1, h.2.1, ?_⟩
  have h3 := h.2.2 (by norm_num) (by norm_num)
  simpa using h3

theorem skipBedrockHeader_pres {s : S} {b : BedrockLevelArg} {s' : S}
    (h : skipBedrockHeader s b = .ok s') : Pres s s' := by
  unfold skipBedrockHeader at h
  split at h
  · obtain ⟨⟨a, sa⟩, ha, h⟩ := bind_ok h
    simp only [] at h
    obtain ⟨⟨a2, sa2⟩, hb, h⟩ := bind_ok h
    simp only [Except.ok.injEq] at h
    rw [← h]
    exact (readUnsignedInt_pres ha).trans (readUnsignedInt_pres hb)
  · simp only [Except.ok.injEq] at h
    rw [← h]
    exact Pres.refl _

theorem readRootName_pres {fuel : ℕ} {s : S} {n : RootNameArg} {v : Option (List ℕ)}
    {s' : S} (h : readRootName fuel s n = .ok (v, s')) : Pres s s' := by
  unfold readRootName at h
  split at h
  · obtain ⟨⟨nm, sn⟩, ha, h⟩ := bind_ok h
    simp only [Except.ok.injEq, Prod.mk.injEq] at h
    rw [← h.2]
    exact readString_pres ha
  · simp only [Except.ok.injEq, Prod.mk.injEq] at h
    rw [← h.2]
    exact Pres.refl _

/-- C7: when the non-strict read of a buffer succeeds, the result reports the
final byte offset reached; if bytes remain past that offset in the (possibly
decompressed) buffer, the same read with `strict := true` (the default) fails
with the unexpected-end-tag error, and if no bytes remain the strict read
succeeds with the same result (no offset reported). -/
theorem claim_C7 (dec : Dec) (fuel : ℕ) (s : S) (o : ReadOptions) (r : NBTData)
    (h : readRoot dec fuel s { o with strict := false } = .ok r) :
    ∃ off s₀, r.byteOffset = some off ∧
      decompressStep dec s o.compression = .ok s₀ ∧
      ((s₀.data.length : ℤ) > off →
        readRoot dec fuel s { o with strict := true } = .error .unexpectedEndTag) ∧
      (¬ (s₀.data.length : ℤ) > off →
        readRoot dec fuel s { o with strict := true } =
          .ok { r with byteOffset := none }) := by
  unfold readRoot at h
  obtain ⟨s₀, h1, h2⟩ := bind_ok h
  try simp only [] at h2
  obtain ⟨s₁, hb, h2⟩ := bind_ok h2
  try simp only [] at h2
  obtain ⟨⟨t, s₂⟩, ht, h2⟩ := bind_ok h2
  try simp only [] at h2
  by_cases hop : t ≠ TAG.LIST ∧ t ≠ TAG.COMPOUND
  · rw [if_pos hop] at h2
    exact absurd h2 (by simp)
  · rw [if_neg hop] at h2
    obtain ⟨⟨rootNameV, s₃⟩, hn, h2⟩ := bind_ok h2
    try simp only [] at h2
    obtain ⟨u, hok, h2⟩ := bind_ok h2
    try simp only [] at h2
    obtain ⟨⟨root, s₄⟩, htag, h2⟩ := bind_ok h2
    try simp only [] at h2
    rw [if_neg (by simp)] at h2
    simp only [Except.ok.injEq] at h2
    have hdata : s₄.data = s₀.data :=
      (((skipBedrockHeader_pres hb).trans (readTagType_pres ht)).trans
        ((readRootName_pres hn).trans (readTag_pres htag))).1
    have hT : readRoot dec fuel s { o with strict := true } =
        if (s₄.data.length : ℤ) > s₄.off then .error .unexpectedEndTag
        else .ok
          { data := root, rootName := rootNameV, endian := o.endian,
            compression := o.compression, bedrockLevel := o.bedrockLevel,
            byteOffset := none } := by
      unfold readRoot
      rw [h1]
      simp only [bind, Except.bind]
      rw [hb]
      simp only [bind, Except.bind]
      rw [ht]
      simp only [bind, Except.bind]
      try simp only []
      rw [if_neg hop]
      rw [hn]
      simp only [bind, Except.bind]
      try simp only []
      rw [hok]
      simp only [bind, Except.bind]
      try simp only []
      rw [htag]
      simp only [bind, Except.bind]
      try simp only []
      by_cases hc : (s₄.data.length : ℤ) > s₄.off
      · rw [if_pos (⟨trivial, hc⟩ : _ ∧ _), if_pos hc]
      · rw [if_neg (by simp [hc]), if_neg hc]
        simp
    refine ⟨s₄.off, s₀, ?_, h1, ?_, ?_⟩
    · rw [← h2]
      rfl
    · intro hlt
      rw [hT, if_pos (by rw [hdata]; exact hlt)]
    · intro hge
      rw [hT, if_neg (by rw [hdata]; exact hge), ← h2]

/-- Witness for C7: the buffer `0A 00 00 00 FF` (empty root compound plus one
trailing byte) read non-strictly ends at offset 4 of 5, so the strict read
fails with the unexpected-end-tag error. -/
theorem claim_C7_witness :
    ∃ off s₀,
      (NBTData.byteOffset
        { data := JSVal.obj [], rootName := some [], endian := Endian.big,
          compression := none, bedrockLevel := BedrockLevelArg.null,
          byteOffset := some 4 }) = some off ∧
      decompressStep (fun d _ => some d) ⟨[10, 0, 0, 0, 255], 0, false, false⟩
        none = .ok s₀ ∧
      ((s₀.data.length : ℤ) > off →
        readRoot (fun d _ => some d) 8 ⟨[10, 0, 0, 0, 255], 0, false, false⟩
          ⟨RootNameArg.bool true, Endian.big, none, BedrockLevelArg.null, true⟩ =
          .error .unexpectedEndTag) ∧
      (¬ (s₀.data.length : ℤ) > off →
        readRoot (fun d _ => some d) 8 ⟨[10, 0, 0, 0, 255], 0, false, false⟩
          ⟨RootNameArg.bool true, Endian.big, none, BedrockLevelArg.null, true⟩ =
          .ok
            { data := JSVal.obj [], rootName := some [], endian := Endian.big,
              compression := none, bedrockLevel := BedrockLevelArg.null,
              byteOffset := none }) :=
  claim_C7 (fun d _ => some d) 8 ⟨[10, 0, 0, 0, 255], 0, false, false⟩
    ⟨RootNameArg.bool true, Endian.big, none, BedrockLevelArg.null, true⟩
    { data := JSVal.obj [], rootName := some [], endian := Endian.big,
      compression := none, bedrockLevel := BedrockLevelArg.null,
      byteOffset := some 4 } (by rfl)

/-- C10 counterexample: with every hint left at its default, reading an empty
buffer fails with the host `RangeError` thrown by the `hasGzipHeader` peek
(`getUint16` on a zero-byte `DataView`), not with the unexpected-buffer-end
error. -/
theorem claim_C10_counterexample :
    read (fun d _ => some d) 8 9 [] {} = .error .rangeError ∧
    Err.rangeError ≠ Err.unexpectedBufferEnd := ⟨rfl, by decide⟩

/-- C10 (amended): on an empty input, `read` with all hints at their defaults
fails with the host `RangeError` raised by the gzip-header sniff; once the
compression hint is supplied (the explicit `null` scheme), the failure is the
unexpected-buffer-end error, raised by `#allocate` under the opening-tag
read. -/
theorem claim_C10_amended (dec : Dec) (fuel gas : ℕ) :
    read dec fuel (gas + 1) [] {} = .error .rangeError ∧
    read dec fuel (gas + 6) [] { compression := some none } =
      .error .unexpectedBufferEnd := ⟨rfl, rfl⟩

/-- C2 (code bug): the spec requires the bedrock-level header predicate to be
evaluated on the fresh decompressed byte buffer, but `read` evaluates
`reader.hasBedrockLevelHeader(endian)` on the reader built from the *original*
compressed bytes (the decompressed local `data` binding is discarded).  Here a
gzip-hinted 16-byte input satisfies the predicate while its 10-byte
decompression does not, yet the decode reports `bedrockLevel: true`: the
predicate was checked against the compressed bytes, diverging from the spec. -/
theorem claim_C2 :
    read (fun _ _ => some [0, 0, 0, 0, 99, 0, 0, 0, 10, 0]) 8 9
        [0, 0, 0, 0, 8, 0, 0, 0, 0, 0, 0, 0, 0, 0, 0, 0]
        { rootName := some (RootNameArg.bool false), endian := some Endian.little,
          compression := some (some Compression.gzip), bedrockLevel := none } =
      .ok
        { data := JSVal.obj [], rootName := none, endian := Endian.little,
          compression := some Compression.gzip,
          bedrockLevel := BedrockLevelArg.bool true, byteOffset := none } ∧
    hasBedrockLevelHeader ⟨[0, 0, 0, 0, 99, 0, 0, 0, 10, 0], 0, true, false⟩
      Endian.little = false ∧
    hasBedrockLevelHeader ⟨[0, 0, 0, 0, 8, 0, 0, 0, 0, 0, 0, 0, 0, 0, 0, 0], 0, true, false⟩
      Endian.little = true :=
  ⟨rfl, rfl, rfl⟩

theorem jsSet_keys (o : List (List ℕ × JSVal)) (k : List ℕ) (v : JSVal) :
    (jsSet o k v).map Prod.fst =
      if k ∈ o.map Prod.fst then o.map Prod.fst else o.map Prod.fst ++ [k] := by
  induction o with
  | nil => simp [jsSet]
  | cons p rest ih =>
    obtain ⟨k', v'⟩ := p
    by_cases hk : k' = k
    · subst hk
      simp [jsSet]
    · simp only [jsSet, if_neg hk, List.map_cons, ih]
      by_cases hm : k ∈ rest.map Prod.fst
      · rw [if_pos hm, if_pos (by simp [hm])]
      · rw [if_neg hm, if_neg (by simp [hm, Ne.symm hk])]
        simp

theorem buildKeys : ∀ (es : List (List ℕ × JSVal)) (o : List (List ℕ × JSVal)),
    (es.foldl (fun o p => jsSet o p.1 p.2) o).map Prod.fst =
      (es.map Prod.fst).foldl
        (fun acc k => if k ∈ acc then acc else acc ++ [k]) (o.map Prod.fst)
  | [], o => rfl
  | p :: rest, o => by
    simp only [List.foldl_cons, List.map_cons]
    rw [buildKeys rest, jsSet_keys]

theorem jsGet_jsSet (o : List (List ℕ × JSVal)) (n k : List ℕ) (v : JSVal) :
    jsGet (jsSet o n v) k = if n = k then some v else jsGet o k := by
  induction o with
  | nil =>
    by_cases h : n = k
    · simp [jsGet, jsSet, List.find?, h]
    · simp [jsGet, jsSet, List.find?, h]
  | cons p rest ih =>
    obtain ⟨k', v'⟩ := p
    by_cases hk : k' = n
    · subst hk
      simp only [jsSet, if_pos rfl]
      by_cases h : k' = k
      · simp [jsGet, List.find?, h]
      · simp [jsGet, List.find?, h]
    · simp only [jsSet, if_neg hk]
      by_cases h : k' = k
      · have hnk : n ≠ k := fun e => hk (e ▸ h.symm ▸ rfl)
        simp [jsGet, List.find?, h, hnk]
      · simp only [jsGet, List.find?] at ih ⊢
        simp only [show (decide (k' = k)) = false by simp [h]]
        exact ih

theorem jsGet_build : ∀ (es : List (List ℕ × JSVal)) (o : List (List ℕ × JSVal))
    (k : List ℕ), jsGet (es.foldl (fun o p => jsSet o p.1 p.2) o) k =
      match lastValue es k with
      | some v => some v
      | none => jsGet o k
  | [], o, k => by simp [lastValue]
  | (n, e) :: es, o, k => by
    simp only [List.foldl_cons]
    rw [jsGet_build es, jsGet_jsSet]
    by_cases hn : n = k
    · cases hl : lastValue es k with
      | some v => simp [lastValue, hl]
      | none => simp [lastValue, hl, hn]
    · cases hl : lastValue es k with
      | some v => simp [lastValue, hl]
      | none => simp [lastValue, hl, hn]

theorem jsOwnKeys_no_index (o : List (List ℕ × JSVal))
    (h : ∀ k ∈ o.map Prod.fst, ¬ isArrayIndexKey k) :
    jsOwnKeys o = o.map Prod.fst := by
  unfold jsOwnKeys
  have h1 : (o.map Prod.fst).filter (fun k => isArrayIndexKey k) = [] := by
    rw [List.filter_eq_nil_iff]
    intro a ha
    simp [h a ha]
  have h2 : (o.map Prod.fst).filter (fun k => !isArrayIndexKey k) = o.map Prod.fst := by
    rw [List.filter_eq_self]
    intro a ha
    simp [h a ha]
  simp only [h1, h2]
  rfl

theorem entries_shift : ∀ (fuel : ℕ) (acc : List (List ℕ × JSVal)) (s : S),
    readCompoundEntries fuel acc s =
      Except.map (fun p => (acc ++ p.1, p.2)) (readCompoundEntries fuel [] s)
  | 0, acc, s => rfl
  | fuel + 1, acc, s => by
    unfold readCompoundEntries
    cases h1 : readTagType s with
    | error e => rfl
    | ok p =>
      obtain ⟨t, s₁⟩ := p
      simp only [bind, Except.bind]
      by_cases ht : t = TAG.END
      · rw [if_pos ht, if_pos ht]
        simp [Except.map]
      · rw [if_neg ht, if_neg ht]
        cases h2 : readString fuel s₁ with
        | error e => rfl
        | ok q =>
          obtain ⟨name, s₂⟩ := q
          simp only []
          cases h3 : readTag fuel t s₂ with
          | error e => rfl
          | ok w =>
            obtain ⟨entry, s₃⟩ := w
            simp only []
            rw [entries_shift fuel (acc ++ [(name, entry)]) s₃,
              entries_shift fuel ([] ++ [(name, entry)]) s₃]
            cases readCompoundEntries fuel [] s₃ with
            | error e => rfl
            | ok r => simp [Except.map]

theorem readCompoundLoop_entries : ∀ (fuel : ℕ) (acc : List (List ℕ × JSVal)) (s : S),
    readCompoundLoop fuel acc s =
      Except.map (fun p => (p.1.foldl (fun o q => jsSet o q.1 q.2) acc, p.2))
        (readCompoundEntries fuel [] s)
  | 0, acc, s => rfl
  | fuel + 1, acc, s => by
    unfold readCompoundLoop readCompoundEntries
    cases h1 : readTagType s with
    | error e => rfl
    | ok p =>
      obtain ⟨t, s₁⟩ := p
      simp only [bind, Except.bind]
      by_cases ht : t = TAG.END
      · rw [if_pos ht, if_pos ht]
        simp [Except.map]
      · rw [if_neg ht, if_neg ht]
        cases h2 : readString fuel s₁ with
        | error e => rfl
        | ok q =>
          obtain ⟨name, s₂⟩ := q
          simp only []
          cases h3 : readTag fuel t s₂ with
          | error e => rfl
          | ok w =>
            obtain ⟨entry, s₃⟩ := w
            simp only []
            rw [readCompoundLoop_entries fuel (jsSet acc name entry) s₃,
              entries_shift fuel ([] ++ [(name, entry)]) s₃]
            cases readCompoundEntries fuel [] s₃ with
            | error e => rfl
            | ok r => simp [Except.map]


theorem mem_dedupFoldl : ∀ (ks acc : List (List ℕ)) (x : List ℕ),
    x ∈ ks.foldl (fun acc k => if k ∈ acc then acc else acc ++ [k]) acc →
    x ∈ acc ∨ x ∈ ks
  | [], _, _, h => Or.inl h
  | k :: ks, acc, x, h => by
    simp only [List.foldl_cons] at h
    rcases mem_dedupFoldl ks _ x h with h2 | h2
    · by_cases hm : k ∈ acc
      · rw [if_pos hm] at h2
        exact Or.inl h2
      · rw [if_neg hm] at h2
        rcases List.mem_append.mp h2 with h3 | h3
        · exact Or.inl h3
        · simp at h3
          subst h3
          exact Or.inr (List.mem_cons_self _ _)
    · exact Or.inr (List.mem_cons_of_mem _ h2)

theorem mem_dedupFirst {ks : List (List ℕ)} {x : List ℕ} (h : x ∈ dedupFirst ks) :
    x ∈ ks := by
  rcases mem_dedupFoldl ks [] x h with h2 | h2
  · exact absurd h2 (List.not_mem_nil x)
  · exact h2

/-- C8 (amended): a decoded COMPOUND is exactly the object built by performing
the wire entry assignments in order: its property-insertion order lists each
distinct on-wire name once in first-occurrence wire order, a duplicated name
retains the value of its last wire occurrence, and key *iteration*
(`Object.keys`) also follows first-occurrence wire order provided no name is a
canonical array index (array-index names iterate first, in ascending numeric
order, refuting the unconditional wire-order reading). -/
theorem claim_C8_amended (fuel : ℕ) (s : S) (obj : List (List ℕ × JSVal)) (s' : S)
    (h : readCompound fuel s = .ok (obj, s')) :
    ∃ es, readCompoundEntries fuel [] s = .ok (es, s') ∧
      obj = buildObj es ∧
      obj.map Prod.fst = dedupFirst (es.map Prod.fst) ∧
      (∀ k, jsGet obj k = lastValue es k) ∧
      ((∀ k ∈ es.map Prod.fst, ¬ isArrayIndexKey k) →
        jsOwnKeys obj = dedupFirst (es.map Prod.fst)) := by
  unfold readCompound at h
  rw [readCompoundLoop_entries] at h
  cases he : readCompoundEntries fuel [] s with
  | error e =>
    rw [he] at h
    exact absurd h (by simp [Except.map])
  | ok p =>
    obtain ⟨es, s''⟩ := p
    rw [he] at h
    simp only [Except.map, Except.ok.injEq, Prod.mk.injEq] at h
    obtain ⟨hobj, hs⟩ := h
    have hkeys : obj.map Prod.fst = dedupFirst (es.map Prod.fst) := by
      rw [← hobj]
      exact buildKeys es []
    refine ⟨es, ?_, ?_, hkeys, ?_, ?_⟩
    · rw [← hs]
      try exact he
    · rw [← hobj]
      rfl
    · intro k
      rw [← hobj, jsGet_build]
      cases lastValue es k <;> rfl
    · intro hni
      have hsub : ∀ k ∈ obj.map Prod.fst, ¬ isArrayIndexKey k := by
        intro k hk
        rw [hkeys] at hk
        exact hni k (mem_dedupFirst hk)
      rw [jsOwnKeys_no_index obj hsub, hkeys]


/-- C8 counterexample: a compound whose entries arrive in wire order
`"1", "0"` stores them in that first-occurrence order, but key iteration
yields `"0", "1"`: canonical array-index names are iterated in ascending
numeric order, not wire order. -/
theorem claim_C8_counterexample :
    readCompound 5 ⟨[1, 0, 1, 49, 5, 1, 0, 1, 48, 7, 0], 0, false, false⟩ =
      .ok ([([49], JSVal.num 5), ([48], JSVal.num 7)],
        ⟨[1, 0, 1, 49, 5, 1, 0, 1, 48, 7, 0], 11, false, false⟩) ∧
    dedupFirst [[49], [48]] = [[49], [48]] ∧
    jsOwnKeys [([49], JSVal.num 5), ([48], JSVal.num 7)] = [[48], [49]] :=
  ⟨rfl, rfl, rfl⟩

/-- Witness for C8 (amended): the compound `{A: 5b, A: 7b}` with a duplicated
non-index name decodes to a single-entry object retaining the last value 7. -/
theorem claim_C8_amended_witness :
    ∃ es,
      readCompoundEntries 5 []
          ⟨[1, 0, 1, 65, 5, 1, 0, 1, 65, 7, 0], 0, false, false⟩ =
        .ok (es, ⟨[1, 0, 1, 65, 5, 1, 0, 1, 65, 7, 0], 11, false, false⟩) ∧
      [([65], JSVal.num 7)] = buildObj es ∧
      ([([65], JSVal.num 7)] : List (List ℕ × JSVal)).map Prod.fst =
        dedupFirst (es.map Prod.fst) ∧
      (∀ k, jsGet [([65], JSVal.num 7)] k = lastValue es k) ∧
      ((∀ k ∈ es.map Prod.fst, ¬ isArrayIndexKey k) →
        jsOwnKeys [([65], JSVal.num 7)] = dedupFirst (es.map Prod.fst)) :=
  claim_C8_amended 5 ⟨[1, 0, 1, 65, 5, 1, 0, 1, 65, 7, 0], 0, false, false⟩
    [([65], JSVal.num 7)] ⟨[1, 0, 1, 65, 5, 1, 0, 1, 65, 7, 0], 11, false, false⟩
    (by rfl)

end NBTify
